import Mathlib

/-
  Verification of the conpty proxy / arena allocator core of emacs-libvterm.

  The definitions below are shallow embeddings of the C sources:
    - src/conpty-proxy/conpty_proxy.c  (ring buffer, IOCP pump, control
      channel, setup/teardown, exit codes)
    - src/arena.c and src/conpty-proxy/arena.c  (arena allocators)
    - src/conpty.c  (in-process ConPTY session)

  Machine integers (DWORD, LONG, size_t) are modelled as Nat with explicit
  `% 2^w` where wrap-around matters; bytes are modelled as Nat.
-/

set_option maxHeartbeats 1000000

namespace ConptyProxy

/-- A byte of ring-buffer or pipe payload, modelled as a natural number. -/
abbrev Byte := Nat

/-- Shallow embedding of `ring_buffer_t` (conpty_proxy.c lines 12-18).
`buffer` maps a storage index to the byte stored there; `capacity`,
`read_pos` and `write_pos` are the DWORD/LONG fields.  The cursors are kept
below `capacity` by every operation (they are updated modulo `capacity`). -/
structure RingBuffer where
  capacity : Nat
  read_pos : Nat
  write_pos : Nat
  buffer : Nat → Byte

/-- The effect of C `memcpy(dst + pos, src, src.length)` on a byte store:
indices in `[pos, pos + src.length)` now hold the bytes of `src`, all other
indices are unchanged. -/
def memcpy (dst : Nat → Byte) (pos : Nat) (src : List Byte) : Nat → Byte :=
  fun i => if pos ≤ i ∧ i < pos + src.length then src.getD (i - pos) 0 else dst i

/-- `ring_buffer_available_read` (conpty_proxy.c lines 106-110):
`(write_pos >= read_pos) ? write_pos - read_pos : capacity - read_pos + write_pos`. -/
def ring_buffer_available_read (rb : RingBuffer) : Nat :=
  if rb.read_pos ≤ rb.write_pos then rb.write_pos - rb.read_pos
  else rb.capacity - rb.read_pos + rb.write_pos

/-- `ring_buffer_available_write` (lines 112-115): keeps one byte free to
distinguish full from empty. -/
def ring_buffer_available_write (rb : RingBuffer) : Nat :=
  rb.capacity - ring_buffer_available_read rb - 1

/-- `ring_buffer_init` (lines 117-123): both cursors start at 0 over the
given storage. -/
def ring_buffer_init (storage : Nat → Byte) (capacity : Nat) : RingBuffer :=
  { capacity := capacity, read_pos := 0, write_pos := 0, buffer := storage }

/-- `ring_buffer_write` (lines 126-147).  Truncates `data` to the free
space, copies in one chunk or two (wrap-around), then advances `write_pos`
modulo `capacity`.  Returns the new state and the number of bytes written. -/
def ring_buffer_write (rb : RingBuffer) (data : List Byte) : RingBuffer × Nat :=
  let available := ring_buffer_available_write rb
  let to_write := if data.length < available then data.length else available
  if to_write = 0 then (rb, 0) else
  let write_pos := rb.write_pos
  let first_chunk := rb.capacity - write_pos
  let buffer' :=
    if to_write ≤ first_chunk then
      memcpy rb.buffer write_pos (data.take to_write)
    else
      memcpy (memcpy rb.buffer write_pos (data.take first_chunk)) 0
        ((data.drop first_chunk).take (to_write - first_chunk))
  ({ rb with buffer := buffer', write_pos := (write_pos + to_write) % rb.capacity }, to_write)

/-- Length returned by `ring_buffer_get_contiguous_read` (lines 150-161);
the out-pointer is `buffer + read_pos`. -/
def ring_buffer_get_contiguous_read (rb : RingBuffer) : Nat :=
  if rb.read_pos ≤ rb.write_pos then rb.write_pos - rb.read_pos
  else rb.capacity - rb.read_pos

/-- The bytes exposed by `ring_buffer_get_contiguous_read`: the contiguous
region starting at `read_pos`. -/
def contiguousBytes (rb : RingBuffer) : List Byte :=
  (List.range (ring_buffer_get_contiguous_read rb)).map (fun i => rb.buffer (rb.read_pos + i))

/-- `ring_buffer_consume` (lines 164-167). -/
def ring_buffer_consume (rb : RingBuffer) (bytes : Nat) : RingBuffer :=
  { rb with read_pos := (rb.read_pos + bytes) % rb.capacity }

/-- One-or-more iterations of the loop in `flush_ring_buffer`
(conpty_proxy.c lines 405-426), with `WriteFile` succeeding and accepting
the full contiguous region each time (`writted = available`).  The fuel
argument bounds the iteration count; `flush_ring_buffer` supplies enough
fuel for the loop to reach `available = 0`. -/
def flush_ring_buffer_go : Nat → RingBuffer → RingBuffer × List Byte
  | 0, rb => (rb, [])
  | Nat.succ fuel, rb =>
    let available := ring_buffer_get_contiguous_read rb
    if available = 0 then (rb, [])
    else
      let emitted := contiguousBytes rb
      let rb' := ring_buffer_consume rb available
      let rest := flush_ring_buffer_go fuel rb'
      (rest.1, emitted ++ rest.2)

/-- `flush_ring_buffer` with a fully-accepting `WriteFile`: returns the
drained state and the byte sequence written to the input endpoint. -/
def flush_ring_buffer (rb : RingBuffer) : RingBuffer × List Byte :=
  flush_ring_buffer_go (rb.capacity + 2) rb

/-- The logical FIFO contents of the ring buffer: the unread bytes starting
at `read_pos`, wrapping modulo `capacity`. -/
def queueOf (rb : RingBuffer) : List Byte :=
  (List.range (ring_buffer_available_read rb)).map
    (fun i => rb.buffer ((rb.read_pos + i) % rb.capacity))

/-- Well-formedness of a ring-buffer state: positive capacity and both
cursors inside the storage.  `ring_buffer_init` establishes it and every
operation preserves it. -/
def WF (rb : RingBuffer) : Prop :=
  0 < rb.capacity ∧ rb.read_pos < rb.capacity ∧ rb.write_pos < rb.capacity

theorem mod_two_cases {x c : Nat} (hx : x < 2 * c) :
    x % c = if x < c then x else x - c := by
  rcases Nat.lt_or_ge x c with h | h
  · simp [h, Nat.mod_eq_of_lt h]
  · have hc : 0 < c := by omega
    have h1 : x - c < c := by omega
    have : x % c = (x - c) % c := by
      conv_lhs => rw [show x = x - c + c by omega]
      simp [Nat.add_mod_right]
    simp [this, Nat.mod_eq_of_lt h1, h, Nat.not_lt.mpr h]

theorem available_read_le (rb : RingBuffer) (h : WF rb) :
    ring_buffer_available_read rb ≤ rb.capacity - 1 := by
  obtain ⟨hc, hr, hw⟩ := h
  unfold ring_buffer_available_read
  split <;> omega

theorem available_read_mod (rb : RingBuffer) (h : WF rb) :
    ring_buffer_available_read rb
      = (rb.write_pos + rb.capacity - rb.read_pos) % rb.capacity := by
  obtain ⟨hc, hr, hw⟩ := h
  unfold ring_buffer_available_read
  have h2 : rb.write_pos + rb.capacity - rb.read_pos < 2 * rb.capacity := by omega
  rw [mod_two_cases h2]
  split <;> split <;> omega

theorem write_pos_congr (rb : RingBuffer) (h : WF rb) :
    (rb.read_pos + ring_buffer_available_read rb) % rb.capacity = rb.write_pos := by
  obtain ⟨hc, hr, hw⟩ := h
  rw [available_read_mod rb ⟨hc, hr, hw⟩, Nat.add_mod_mod]
  have h2 : rb.read_pos + (rb.write_pos + rb.capacity - rb.read_pos)
      = rb.write_pos + rb.capacity := by omega
  rw [h2, Nat.add_mod_right, Nat.mod_eq_of_lt hw]

theorem memcpy_hit (dst : Nat → Byte) (pos : Nat) (src : List Byte) (i : Nat)
    (h1 : pos ≤ i) (h2 : i < pos + src.length) :
    memcpy dst pos src i = src.getD (i - pos) 0 := by
  simp [memcpy, h1, h2]

theorem memcpy_miss (dst : Nat → Byte) (pos : Nat) (src : List Byte) (i : Nat)
    (h : i < pos ∨ pos + src.length ≤ i) :
    memcpy dst pos src i = dst i := by
  unfold memcpy
  split
  · omega
  · rfl

theorem getD_take (data : List Byte) (n j : Nat) (h : j < n) :
    (data.take n).getD j 0 = data.getD j 0 := by
  rw [List.getD_eq_getElem?_getD, List.getD_eq_getElem?_getD, List.getElem?_take_of_lt h]

theorem getD_drop (data : List Byte) (n j : Nat) :
    (data.drop n).getD j 0 = data.getD (n + j) 0 := by
  rw [List.getD_eq_getElem?_getD, List.getD_eq_getElem?_getD, List.getElem?_drop]

/-- Characterization of `ring_buffer_write`: it accepts
`min data.length available_write` bytes, stores byte `j` at storage index
`(write_pos + j) % capacity`, leaves every other index unchanged, and
advances `write_pos` by the accepted amount modulo `capacity`. -/
theorem ring_buffer_write_spec (rb : RingBuffer) (data : List Byte) (h : WF rb) :
    (ring_buffer_write rb data).2
        = min data.length (ring_buffer_available_write rb) ∧
    (ring_buffer_write rb data).1.capacity = rb.capacity ∧
    (ring_buffer_write rb data).1.read_pos = rb.read_pos ∧
    (ring_buffer_write rb data).1.write_pos
        = (rb.write_pos + min data.length (ring_buffer_available_write rb)) % rb.capacity ∧
    (∀ j, j < min data.length (ring_buffer_available_write rb) →
      (ring_buffer_write rb data).1.buffer ((rb.write_pos + j) % rb.capacity)
        = data.getD j 0) ∧
    (∀ i, i < rb.capacity →
      (∀ j, j < min data.length (ring_buffer_available_write rb) →
        i ≠ (rb.write_pos + j) % rb.capacity) →
      (ring_buffer_write rb data).1.buffer i = rb.buffer i) := by
  obtain ⟨hc, hr, hw⟩ := h
  have hA : ring_buffer_available_read rb ≤ rb.capacity - 1 :=
    available_read_le rb ⟨hc, hr, hw⟩
  set c := rb.capacity with hcdef
  set w := rb.write_pos with hwdef
  set AW := ring_buffer_available_write rb with hAWdef
  have hAW : AW ≤ c - 1 := by
    rw [hAWdef]
    unfold ring_buffer_available_write
    omega
  set tw := min data.length AW with htwdef
  have htwle : tw ≤ data.length := Nat.min_le_left _ _
  have htwAW : tw ≤ AW := Nat.min_le_right _ _
  have hto : (if data.length < AW then data.length else AW) = tw := by
    rw [htwdef]; split <;> omega
  unfold ring_buffer_write
  simp only [← hAWdef, ← hwdef, ← hcdef, hto]
  by_cases h0 : tw = 0
  · rw [if_pos h0]
    and_intros
    · exact h0.symm
    · rfl
    · rfl
    · rw [h0, Nat.add_zero, Nat.mod_eq_of_lt hw]
    · intro j hj; omega
    · intro i _ _; rfl
  · rw [if_neg h0]
    and_intros
    · rfl
    · rfl
    · rfl
    · rfl
    · -- written positions hold the bytes of data
      intro j hj
      by_cases hbr : tw ≤ c - w
      · simp only [if_pos hbr]
        have hlt : w + j < c := by omega
        rw [Nat.mod_eq_of_lt hlt]
        rw [memcpy_hit _ _ _ _ (by omega)
          (by rw [List.length_take]; omega)]
        have : w + j - w = j := by omega
        rw [this, getD_take _ _ _ hj]
      · simp only [if_neg hbr]
        by_cases hj2 : j < c - w
        · have hlt : w + j < c := by omega
          rw [Nat.mod_eq_of_lt hlt]
          rw [memcpy_miss _ _ _ _ (Or.inr (by
            rw [List.length_take, List.length_drop]
            omega))]
          rw [memcpy_hit _ _ _ _ (by omega)
            (by rw [List.length_take]; omega)]
          have : w + j - w = j := by omega
          rw [this, getD_take _ _ _ hj2]
        · have h2c : w + j < 2 * c := by omega
          rw [mod_two_cases h2c, if_neg (by omega)]
          rw [memcpy_hit _ _ _ _ (by omega) (by
            rw [List.length_take, List.length_drop]
            omega)]
          have hz : w + j - c - 0 = j - (c - w) := by omega
          rw [hz, getD_take _ _ _ (by omega), getD_drop]
          have : c - w + (j - (c - w)) = j := by omega
          rw [this]
    · -- unwritten positions are unchanged
      intro i hi hmiss
      by_cases hbr : tw ≤ c - w
      · simp only [if_pos hbr]
        rcases Nat.lt_or_ge i w with hlt | hge
        · exact memcpy_miss _ _ _ _ (Or.inl hlt)
        · rcases Nat.lt_or_ge i (w + tw) with hin | hout
          · exfalso
            refine hmiss (i - w) (by omega) ?_
            rw [Nat.mod_eq_of_lt (by omega : w + (i - w) < c)]
            omega
          · exact memcpy_miss _ _ _ _
              (Or.inr (by rw [List.length_take]; omega))
      · simp only [if_neg hbr]
        have hiw : i < w := by
          rcases Nat.lt_or_ge i w with hlt | hge
          · exact hlt
          · exfalso
            refine hmiss (i - w) (by omega) ?_
            rw [Nat.mod_eq_of_lt (by omega : w + (i - w) < c)]
            omega
        have hitw : ¬ i < tw - (c - w) := by
          intro hin
          refine hmiss (i + (c - w)) (by omega) ?_
          have h2c : w + (i + (c - w)) < 2 * c := by omega
          rw [mod_two_cases h2c, if_neg (by omega)]
          omega
        rw [memcpy_miss _ _ _ _ (Or.inr (by
          rw [List.length_take, List.length_drop]
          omega))]
        exact memcpy_miss _ _ _ _ (Or.inl hiw)

/-- Writing to the ring buffer appends the accepted prefix of `data` to the
logical FIFO queue, preserves well-formedness, and grows the unread count by
the accepted amount. -/
theorem ring_buffer_write_queue (rb : RingBuffer) (data : List Byte) (h : WF rb) :
    WF (ring_buffer_write rb data).1 ∧
    ring_buffer_available_read (ring_buffer_write rb data).1
        = ring_buffer_available_read rb
            + min data.length (ring_buffer_available_write rb) ∧
    queueOf (ring_buffer_write rb data).1
        = queueOf rb ++ data.take (min data.length (ring_buffer_available_write rb)) := by
  obtain ⟨hc, hr, hw⟩ := h
  have hA : ring_buffer_available_read rb ≤ rb.capacity - 1 :=
    available_read_le rb ⟨hc, hr, hw⟩
  obtain ⟨h2, hcap, hread, hwrite, hhit, hmiss⟩ :=
    ring_buffer_write_spec rb data ⟨hc, hr, hw⟩
  set c := rb.capacity with hcdef
  set w := rb.write_pos with hwdef
  set r := rb.read_pos with hrdef
  set A := ring_buffer_available_read rb with hAdef
  set tw := min data.length (ring_buffer_available_write rb) with htwdef
  have hAWeq : ring_buffer_available_write rb = c - A - 1 := rfl
  have htwb : A + tw < c := by
    have h1 : tw ≤ ring_buffer_available_write rb := Nat.min_le_right _ _
    omega
  have htwle : tw ≤ data.length := Nat.min_le_left _ _
  set st := (ring_buffer_write rb data).1 with hstdef
  have hwf : WF st := by
    refine ⟨by rw [hcap]; exact hc, by rw [hread, hcap]; exact hr, ?_⟩
    rw [hwrite, hcap]
    exact Nat.mod_lt _ hc
  have hcongr : (r + A) % c = w := write_pos_congr rb ⟨hc, hr, hw⟩
  have havail : ring_buffer_available_read st = A + tw := by
    rw [available_read_mod st hwf, hwrite, hread, hcap]
    have e1 : (w + tw) % c + c - r = (w + tw) % c + (c - r) := by omega
    rw [e1, Nat.mod_add_mod]
    have e2 : w + tw + (c - r) = (w + c - r) + tw := by omega
    rw [e2, ← Nat.mod_add_mod, ← available_read_mod rb ⟨hc, hr, hw⟩, ← hAdef]
    exact Nat.mod_eq_of_lt htwb
  refine ⟨hwf, havail, ?_⟩
  have hwj : ∀ j, (w + j) % c = (r + (A + j)) % c := by
    intro j
    conv_rhs => rw [← Nat.add_assoc, ← Nat.mod_add_mod, hcongr]
  unfold queueOf
  rw [havail, hread, hcap, ← hrdef, List.range_add, List.map_append]
  congr 1
  · -- the old queue contents are untouched
    refine List.map_eq_map_iff.mpr ?_
    intro i hi
    rw [List.mem_range] at hi
    refine hmiss _ (Nat.mod_lt _ hc) ?_
    intro j hj hne
    rw [hwj j] at hne
    have hmeq : Nat.ModEq c (r + i) (r + (A + j)) := hne
    have := (Nat.ModEq.add_left_cancel' r hmeq)
    unfold Nat.ModEq at this
    rw [Nat.mod_eq_of_lt (by omega), Nat.mod_eq_of_lt (by omega)] at this
    omega
  · -- the new tail is exactly the accepted data
    refine List.ext_getElem ?_ ?_
    · simp [List.length_take]
      omega
    · intro j hj1 hj2
      simp only [List.getElem_map, List.getElem_range]
      have hjtw : j < tw := by simpa using hj1
      rw [← hwj j, hhit j hjtw]
      rw [List.getElem_take]
      have hjlen : j < data.length := by omega
      exact List.getD_eq_getElem data 0 hjlen

/-- Consuming `n ≤ available_read` bytes drops them from the front of the
logical queue and leaves storage, capacity and the write cursor unchanged. -/
theorem ring_buffer_consume_spec (rb : RingBuffer) (n : Nat) (h : WF rb)
    (hn : n ≤ ring_buffer_available_read rb) :
    WF (ring_buffer_consume rb n) ∧
    (ring_buffer_consume rb n).capacity = rb.capacity ∧
    (ring_buffer_consume rb n).write_pos = rb.write_pos ∧
    (ring_buffer_consume rb n).buffer = rb.buffer ∧
    ring_buffer_available_read (ring_buffer_consume rb n)
        = ring_buffer_available_read rb - n ∧
    queueOf (ring_buffer_consume rb n) = (queueOf rb).drop n := by
  obtain ⟨hc, hr, hw⟩ := h
  have hA : ring_buffer_available_read rb ≤ rb.capacity - 1 :=
    available_read_le rb ⟨hc, hr, hw⟩
  set c := rb.capacity with hcdef
  set w := rb.write_pos with hwdef
  set r := rb.read_pos with hrdef
  have ha : (r ≤ w ∧ ring_buffer_available_read rb = w - r) ∨
      (w < r ∧ ring_buffer_available_read rb = c - r + w) := by
    unfold ring_buffer_available_read
    rw [← hrdef, ← hwdef, ← hcdef]
    split
    · left; omega
    · right; omega
  have hr2 : r + n < 2 * c := by omega
  have hrmod : (r + n) % c = if r + n < c then r + n else r + n - c :=
    mod_two_cases hr2
  have hwf : WF (ring_buffer_consume rb n) := by
    refine ⟨hc, ?_, hw⟩
    show (r + n) % c < c
    exact Nat.mod_lt _ hc
  have havail : ring_buffer_available_read (ring_buffer_consume rb n)
      = ring_buffer_available_read rb - n := by
    show (if (r + n) % c ≤ w then w - (r + n) % c else c - (r + n) % c + w)
        = ring_buffer_available_read rb - n
    rw [hrmod]
    rcases ha with ⟨h1, h2⟩ | ⟨h1, h2⟩ <;> split <;> split <;> omega
  refine ⟨hwf, rfl, rfl, rfl, havail, ?_⟩
  unfold queueOf
  rw [havail]
  refine List.ext_getElem ?_ ?_
  · simp
  · intro i hi1 hi2
    simp only [List.getElem_map, List.getElem_range, List.getElem_drop]
    show rb.buffer (((r + n) % c + i) % c) = rb.buffer ((r + (n + i)) % c)
    rw [Nat.mod_add_mod, Nat.add_assoc]

theorem contiguous_le (rb : RingBuffer) (h : WF rb) :
    ring_buffer_get_contiguous_read rb ≤ ring_buffer_available_read rb := by
  obtain ⟨hc, hr, hw⟩ := h
  unfold ring_buffer_get_contiguous_read ring_buffer_available_read
  split <;> omega

theorem contiguous_zero (rb : RingBuffer) (h : WF rb)
    (h0 : ring_buffer_get_contiguous_read rb = 0) :
    ring_buffer_available_read rb = 0 ∧ rb.read_pos = rb.write_pos := by
  obtain ⟨hc, hr, hw⟩ := h
  unfold ring_buffer_get_contiguous_read at h0
  unfold ring_buffer_available_read
  constructor
  · split at h0 <;> split <;> omega
  · split at h0 <;> omega

theorem contiguous_pos (rb : RingBuffer) (h : WF rb)
    (h0 : 0 < ring_buffer_get_contiguous_read rb) :
    0 < ring_buffer_available_read rb := by
  obtain ⟨hc, hr, hw⟩ := h
  unfold ring_buffer_get_contiguous_read at h0
  unfold ring_buffer_available_read
  split at h0 <;> split <;> omega

/-- The contiguous readable region is exactly the first
`ring_buffer_get_contiguous_read` bytes of the logical queue. -/
theorem contiguousBytes_take (rb : RingBuffer) (h : WF rb) :
    contiguousBytes rb = (queueOf rb).take (ring_buffer_get_contiguous_read rb) := by
  obtain ⟨hc, hr, hw⟩ := h
  have hle := contiguous_le rb ⟨hc, hr, hw⟩
  unfold contiguousBytes queueOf
  rw [← List.map_take, List.take_range, Nat.min_eq_left hle]
  refine List.map_eq_map_iff.mpr ?_
  intro i hi
  rw [List.mem_range] at hi
  unfold ring_buffer_get_contiguous_read at hi
  congr 1
  rw [Nat.mod_eq_of_lt]
  split at hi <;> omega

/-- The flush loop, given enough fuel, emits exactly the logical queue and
advances the read cursor to the write cursor, touching nothing else. -/
theorem flush_go_spec (fuel : Nat) :
    ∀ rb : RingBuffer, WF rb → ring_buffer_available_read rb < fuel →
    (flush_ring_buffer_go fuel rb).2 = queueOf rb ∧
    (flush_ring_buffer_go fuel rb).1.capacity = rb.capacity ∧
    (flush_ring_buffer_go fuel rb).1.read_pos = rb.write_pos ∧
    (flush_ring_buffer_go fuel rb).1.write_pos = rb.write_pos ∧
    (flush_ring_buffer_go fuel rb).1.buffer = rb.buffer := by
  induction fuel with
  | zero => intro rb _ hlt; omega
  | succ f ih =>
    intro rb hwf hlt
    obtain ⟨hc, hr, hw⟩ := hwf
    have hstep : flush_ring_buffer_go (f + 1) rb
        = (if ring_buffer_get_contiguous_read rb = 0
            then ((rb, []) : RingBuffer × List Byte)
            else
              ((flush_ring_buffer_go f
                  (ring_buffer_consume rb (ring_buffer_get_contiguous_read rb))).1,
                contiguousBytes rb
                  ++ (flush_ring_buffer_go f
                      (ring_buffer_consume rb (ring_buffer_get_contiguous_read rb))).2)) :=
      rfl
    rw [hstep]
    by_cases h0 : ring_buffer_get_contiguous_read rb = 0
    · rw [if_pos h0]
      obtain ⟨ha0, hrw⟩ := contiguous_zero rb ⟨hc, hr, hw⟩ h0
      refine ⟨?_, rfl, hrw, rfl, rfl⟩
      unfold queueOf
      rw [ha0]
      rfl
    · rw [if_neg h0]
      have hpos : 0 < ring_buffer_get_contiguous_read rb :=
        Nat.pos_of_ne_zero h0
      have hle := contiguous_le rb ⟨hc, hr, hw⟩
      obtain ⟨hwf2, hcap2, hwp2, hbuf2, havail2, hq2⟩ :=
        ring_buffer_consume_spec rb (ring_buffer_get_contiguous_read rb)
          ⟨hc, hr, hw⟩ hle
      have hlt2 : ring_buffer_available_read
          (ring_buffer_consume rb (ring_buffer_get_contiguous_read rb)) < f := by
        rw [havail2]; omega
      obtain ⟨ih1, ih2, ih3, ih4, ih5⟩ :=
        ih (ring_buffer_consume rb (ring_buffer_get_contiguous_read rb)) hwf2 hlt2
      refine ⟨?_, ?_, ?_, ?_, ?_⟩
      · show contiguousBytes rb
            ++ (flush_ring_buffer_go f
                (ring_buffer_consume rb (ring_buffer_get_contiguous_read rb))).2
            = queueOf rb
        rw [ih1, hq2, contiguousBytes_take rb ⟨hc, hr, hw⟩, List.take_append_drop]
      · show (flush_ring_buffer_go f _).1.capacity = rb.capacity
        rw [ih2, hcap2]
      · show (flush_ring_buffer_go f _).1.read_pos = rb.write_pos
        rw [ih3, hwp2]
      · show (flush_ring_buffer_go f _).1.write_pos = rb.write_pos
        rw [ih4, hwp2]
      · show (flush_ring_buffer_go f _).1.buffer = rb.buffer
        rw [ih5, hbuf2]

/-- `flush_ring_buffer` (with a fully-accepting WriteFile) emits exactly
the logical queue, handling the wrap-around case as two contiguous
segments, and drains the buffer. -/
theorem flush_ring_buffer_spec (rb : RingBuffer) (h : WF rb) :
    (flush_ring_buffer rb).2 = queueOf rb ∧
    (flush_ring_buffer rb).1.capacity = rb.capacity ∧
    (flush_ring_buffer rb).1.read_pos = rb.write_pos ∧
    (flush_ring_buffer rb).1.write_pos = rb.write_pos ∧
    (flush_ring_buffer rb).1.buffer = rb.buffer ∧
    WF (flush_ring_buffer rb).1 ∧
    queueOf (flush_ring_buffer rb).1 = [] := by
  have hA := available_read_le rb h
  obtain ⟨hc, hr, hw⟩ := h
  have hlt : ring_buffer_available_read rb < rb.capacity + 2 := by omega
  obtain ⟨h1, h2, h3, h4, h5⟩ := flush_go_spec (rb.capacity + 2) rb ⟨hc, hr, hw⟩ hlt
  have e2 : (flush_ring_buffer rb).1.capacity = rb.capacity := h2
  have e3 : (flush_ring_buffer rb).1.read_pos = rb.write_pos := h3
  have e4 : (flush_ring_buffer rb).1.write_pos = rb.write_pos := h4
  have hwf : WF (flush_ring_buffer rb).1 :=
    ⟨by rw [e2]; exact hc, by rw [e3, e2]; exact hw, by rw [e4, e2]; exact hw⟩
  refine ⟨h1, h2, h3, h4, h5, hwf, ?_⟩
  have hav : ring_buffer_available_read (flush_ring_buffer rb).1 = 0 := by
    unfold ring_buffer_available_read
    rw [e3, e4]
    simp
  unfold queueOf
  rw [hav]
  rfl

/-- An operation performed on the write coalescer by stdio_run: the
producer appends a chunk of consumer input with `ring_buffer_write`, or the
flush path runs `flush_ring_buffer`. -/
inductive CoalesceOp where
  | write (data : List Byte)
  | flush

/-- The run is admissible when every `write` fits into the free space at
the moment it happens (buffered bytes never exceed capacity - 1), so no
chunk is truncated. -/
def writeFits : RingBuffer → List CoalesceOp → Bool
  | _, [] => true
  | rb, CoalesceOp.write data :: ops =>
      decide (data.length ≤ ring_buffer_available_write rb) &&
        writeFits (ring_buffer_write rb data).1 ops
  | rb, CoalesceOp.flush :: ops => writeFits (flush_ring_buffer rb).1 ops

/-- The ring-buffer state after a sequence of writes and flushes. -/
def runState (rb : RingBuffer) : List CoalesceOp → RingBuffer
  | [] => rb
  | CoalesceOp.write data :: ops => runState (ring_buffer_write rb data).1 ops
  | CoalesceOp.flush :: ops => runState (flush_ring_buffer rb).1 ops

/-- The bytes emitted to the session input endpoint by the flushes of a
run, in order. -/
def runEmitted (rb : RingBuffer) : List CoalesceOp → List Byte
  | [] => []
  | CoalesceOp.write data :: ops => runEmitted (ring_buffer_write rb data).1 ops
  | CoalesceOp.flush :: ops =>
      (flush_ring_buffer rb).2 ++ runEmitted (flush_ring_buffer rb).1 ops

/-- The concatenation, in FIFO order, of the chunks passed to the writes. -/
def writtenBytes : List CoalesceOp → List Byte
  | [] => []
  | CoalesceOp.write data :: ops => data ++ writtenBytes ops
  | CoalesceOp.flush :: ops => writtenBytes ops

theorem writtenBytes_append (a b : List CoalesceOp) :
    writtenBytes (a ++ b) = writtenBytes a ++ writtenBytes b := by
  induction a with
  | nil => rfl
  | cons op ops ih =>
    cases op <;> simp [writtenBytes, ih]

theorem runState_append (a b : List CoalesceOp) :
    ∀ rb, runState rb (a ++ b) = runState (runState rb a) b := by
  induction a with
  | nil => intro rb; rfl
  | cons op ops ih =>
    intro rb
    cases op <;> simp [runState, ih]

theorem writeFits_append_flush (ops : List CoalesceOp) :
    ∀ rb, writeFits rb ops = true → writeFits rb (ops ++ [CoalesceOp.flush]) = true := by
  induction ops with
  | nil => intro rb _; rfl
  | cons op ops ih =>
    intro rb h
    cases op with
    | write data =>
      rw [List.cons_append]
      unfold writeFits at h ⊢
      rw [Bool.and_eq_true] at h ⊢
      exact ⟨h.1, ih _ h.2⟩
    | flush =>
      rw [List.cons_append]
      unfold writeFits at h ⊢
      exact ih _ h

/-- Main run invariant: for an admissible run the emitted bytes followed
by the still-buffered bytes are exactly the initial buffered bytes
followed by all written chunks, in FIFO order. -/
theorem coalesce_run_invariant (ops : List CoalesceOp) :
    ∀ rb, WF rb → writeFits rb ops = true →
    WF (runState rb ops) ∧
    runEmitted rb ops ++ queueOf (runState rb ops) = queueOf rb ++ writtenBytes ops := by
  induction ops with
  | nil =>
    intro rb hwf _
    simp [runState, runEmitted, writtenBytes]
    exact hwf
  | cons op ops ih =>
    intro rb hwf hfits
    cases op with
    | write data =>
      unfold writeFits at hfits
      rw [Bool.and_eq_true, decide_eq_true_eq] at hfits
      obtain ⟨hlen, hrest⟩ := hfits
      obtain ⟨hwf2, _, hq⟩ := ring_buffer_write_queue rb data hwf
      have hmin : min data.length (ring_buffer_available_write rb) = data.length :=
        Nat.min_eq_left hlen
      rw [hmin, List.take_length] at hq
      obtain ⟨ihwf, iheq⟩ := ih (ring_buffer_write rb data).1 hwf2 hrest
      refine ⟨ihwf, ?_⟩
      show runEmitted (ring_buffer_write rb data).1 ops
          ++ queueOf (runState (ring_buffer_write rb data).1 ops)
          = queueOf rb ++ (data ++ writtenBytes ops)
      rw [iheq, hq, List.append_assoc]
    | flush =>
      unfold writeFits at hfits
      obtain ⟨h1, _, _, _, _, hwf2, hq2⟩ := flush_ring_buffer_spec rb hwf
      obtain ⟨ihwf, iheq⟩ := ih (flush_ring_buffer rb).1 hwf2 hfits
      refine ⟨ihwf, ?_⟩
      show ((flush_ring_buffer rb).2
            ++ runEmitted (flush_ring_buffer rb).1 ops)
          ++ queueOf (runState (flush_ring_buffer rb).1 ops)
          = queueOf rb ++ writtenBytes ops
      rw [List.append_assoc, iheq, hq2, h1]
      rfl

/-- C1: for every sequence of ring-buffer write and flush operations in
which the buffered bytes never exceed capacity - 1 (every write fits), the
bytes emitted by the flushes are exactly the concatenation, in FIFO order,
of the chunks accepted by the writes - no byte lost, duplicated or
reordered - including when the written region wraps around the end of the
storage (the flush emits a pre-wrap segment followed by a post-wrap
segment). -/
theorem ring_buffer_fifo (capacity : Nat) (storage : Nat → Byte)
    (ops : List CoalesceOp) (hc : 0 < capacity)
    (hfits : writeFits (ring_buffer_init storage capacity) ops = true) :
    runEmitted (ring_buffer_init storage capacity) (ops ++ [CoalesceOp.flush])
      = writtenBytes ops := by
  have hwf0 : WF (ring_buffer_init storage capacity) := ⟨hc, hc, hc⟩
  have hfits2 := writeFits_append_flush ops _ hfits
  obtain ⟨hwfF, heqF⟩ := coalesce_run_invariant (ops ++ [CoalesceOp.flush]) _ hwf0 hfits2
  obtain ⟨hwfO, _⟩ := coalesce_run_invariant ops _ hwf0 hfits
  have hfinal : runState (ring_buffer_init storage capacity) (ops ++ [CoalesceOp.flush])
      = (flush_ring_buffer (runState (ring_buffer_init storage capacity) ops)).1 := by
    rw [runState_append]
    rfl
  have hqF : queueOf (runState (ring_buffer_init storage capacity)
      (ops ++ [CoalesceOp.flush])) = [] := by
    rw [hfinal]
    exact (flush_ring_buffer_spec _ hwfO).2.2.2.2.2.2
  have hq0 : queueOf (ring_buffer_init storage capacity) = [] := rfl
  rw [hqF, hq0, writtenBytes_append, List.append_nil] at heqF
  simpa [writtenBytes] using heqF

/-- C1 witness: capacity 16; write 10 bytes, flush (consuming them), then
write 12 bytes so the written region wraps around the end of the storage;
the final flush emits the wrapped chunk intact. -/
theorem ring_buffer_fifo_witness :
    writeFits (ring_buffer_init (fun _ => 0) 16)
        [CoalesceOp.write [1, 2, 3, 4, 5, 6, 7, 8, 9, 10], CoalesceOp.flush,
          CoalesceOp.write [11, 12, 13, 14, 15, 16, 17, 18, 19, 20, 21, 22]] = true ∧
    runEmitted (ring_buffer_init (fun _ => 0) 16)
        ([CoalesceOp.write [1, 2, 3, 4, 5, 6, 7, 8, 9, 10], CoalesceOp.flush,
          CoalesceOp.write [11, 12, 13, 14, 15, 16, 17, 18, 19, 20, 21, 22]]
          ++ [CoalesceOp.flush])
      = writtenBytes
          [CoalesceOp.write [1, 2, 3, 4, 5, 6, 7, 8, 9, 10], CoalesceOp.flush,
            CoalesceOp.write [11, 12, 13, 14, 15, 16, 17, 18, 19, 20, 21, 22]] :=
  ⟨by decide,
    ring_buffer_fifo 16 (fun _ => 0)
      [CoalesceOp.write [1, 2, 3, 4, 5, 6, 7, 8, 9, 10], CoalesceOp.flush,
        CoalesceOp.write [11, 12, 13, 14, 15, 16, 17, 18, 19, 20, 21, 22]]
      (by decide) (by decide)⟩

/-- An operation of the single producer (write) or the single consumer
(full flush, or one flush iteration whose WriteFile accepted only `n`
bytes of the contiguous region, followed by `ring_buffer_consume`). -/
inductive RingOp where
  | write (data : List Byte)
  | flush
  | consumeShort (n : Nat)

def ringStep (rb : RingBuffer) : RingOp → RingBuffer
  | RingOp.write data => (ring_buffer_write rb data).1
  | RingOp.flush => (flush_ring_buffer rb).1
  | RingOp.consumeShort n =>
      ring_buffer_consume rb (min n (ring_buffer_get_contiguous_read rb))

def ringRun (rb : RingBuffer) : List RingOp → RingBuffer
  | [] => rb
  | op :: ops => ringRun (ringStep rb op) ops

theorem ringStep_wf (rb : RingBuffer) (op : RingOp) (h : WF rb) :
    WF (ringStep rb op) ∧ (ringStep rb op).capacity = rb.capacity := by
  obtain ⟨hc, hr, hw⟩ := h
  cases op with
  | write data =>
    obtain ⟨hwf, _, _⟩ := ring_buffer_write_queue rb data ⟨hc, hr, hw⟩
    obtain ⟨_, hcap, _⟩ := ring_buffer_write_spec rb data ⟨hc, hr, hw⟩
    exact ⟨hwf, hcap⟩
  | flush =>
    obtain ⟨_, hcap, _, _, _, hwf, _⟩ := flush_ring_buffer_spec rb ⟨hc, hr, hw⟩
    exact ⟨hwf, hcap⟩
  | consumeShort n =>
    refine ⟨⟨hc, ?_, hw⟩, rfl⟩
    exact Nat.mod_lt _ hc

theorem ringRun_wf (ops : List RingOp) :
    ∀ rb, WF rb → WF (ringRun rb ops) ∧ (ringRun rb ops).capacity = rb.capacity := by
  induction ops with
  | nil => intro rb h; exact ⟨h, rfl⟩
  | cons op ops ih =>
    intro rb h
    obtain ⟨h1, h2⟩ := ringStep_wf rb op h
    obtain ⟨ih1, ih2⟩ := ih (ringStep rb op) h1
    refine ⟨ih1, ?_⟩
    show (ringRun (ringStep rb op) ops).capacity = rb.capacity
    rw [ih2, h2]

/-- A full ring buffer accepts no further bytes and is left unchanged. -/
theorem ring_buffer_write_full (rb : RingBuffer) (data : List Byte)
    (h : ring_buffer_available_write rb = 0) :
    ring_buffer_write rb data = (rb, 0) := by
  simp [ring_buffer_write, h]

/-- C7: in every ring-buffer state reachable from `ring_buffer_init` by
any interleaving of producer writes and consumer flush/consume operations,
the unread count is at most capacity - 1 with
available_read + available_write = capacity - 1, both cursors stay within
the storage, a write only appends to the logical queue (never overwriting
unread bytes), and a full buffer accepts 0 further bytes. -/
theorem ring_buffer_reachable_invariant (capacity : Nat) (storage : Nat → Byte)
    (ops : List RingOp) (hc : 0 < capacity) :
    (ringRun (ring_buffer_init storage capacity) ops).read_pos < capacity ∧
    (ringRun (ring_buffer_init storage capacity) ops).write_pos < capacity ∧
    ring_buffer_available_read (ringRun (ring_buffer_init storage capacity) ops)
        + ring_buffer_available_write (ringRun (ring_buffer_init storage capacity) ops)
      = capacity - 1 ∧
    ring_buffer_available_read (ringRun (ring_buffer_init storage capacity) ops)
      ≤ capacity - 1 ∧
    (∀ data : List Byte,
      queueOf (ring_buffer_write (ringRun (ring_buffer_init storage capacity) ops) data).1
        = queueOf (ringRun (ring_buffer_init storage capacity) ops)
          ++ data.take (min data.length
              (ring_buffer_available_write
                (ringRun (ring_buffer_init storage capacity) ops)))) ∧
    (∀ data : List Byte,
      ring_buffer_available_write (ringRun (ring_buffer_init storage capacity) ops) = 0 →
      ring_buffer_write (ringRun (ring_buffer_init storage capacity) ops) data
        = (ringRun (ring_buffer_init storage capacity) ops, 0)) := by
  have hwf0 : WF (ring_buffer_init storage capacity) := ⟨hc, hc, hc⟩
  obtain ⟨hwf, hcap⟩ := ringRun_wf ops _ hwf0
  have hcap16 : (ringRun (ring_buffer_init storage capacity) ops).capacity = capacity := hcap
  have hr2 := hwf.2.1
  have hw2 := hwf.2.2
  have hA := available_read_le _ hwf
  refine ⟨lt_of_lt_of_le hr2 hcap16.le, lt_of_lt_of_le hw2 hcap16.le, ?_, ?_, ?_, ?_⟩
  · have hAW : ring_buffer_available_write (ringRun (ring_buffer_init storage capacity) ops)
        = (ringRun (ring_buffer_init storage capacity) ops).capacity
          - ring_buffer_available_read (ringRun (ring_buffer_init storage capacity) ops)
          - 1 := rfl
    omega
  · omega
  · intro data
    exact (ring_buffer_write_queue _ data hwf).2.2
  · intro data h0
    exact ring_buffer_write_full _ data h0

/-- C7 witness: the invariant instantiated at capacity 4 after a write of
three bytes (which fills the buffer: available_write becomes 0). -/
theorem ring_buffer_reachable_invariant_witness :
    0 < 4 ∧
    ring_buffer_available_read (ringRun (ring_buffer_init (fun _ => 0) 4)
        [RingOp.write [7, 8, 9]])
      + ring_buffer_available_write (ringRun (ring_buffer_init (fun _ => 0) 4)
        [RingOp.write [7, 8, 9]]) = 4 - 1 ∧
    ring_buffer_write (ringRun (ring_buffer_init (fun _ => 0) 4)
        [RingOp.write [7, 8, 9]]) [99]
      = (ringRun (ring_buffer_init (fun _ => 0) 4) [RingOp.write [7, 8, 9]], 0) := by
  have h := ring_buffer_reachable_invariant 4 (fun _ => 0)
    [RingOp.write [7, 8, 9]] (by decide)
  exact ⟨by decide, h.2.2.1, h.2.2.2.2.2 [99] (by decide)⟩

/-!  Arena allocator (src/arena.c, with header src/arena.h).  size_t is
modelled as Nat; `vm_alloc` is modelled as always succeeding and returning
zero-initialized memory, so allocation is total.  A returned pointer is
`(block, off)` where `block` counts blocks from the oldest one (stable,
since growth prepends new blocks to the chain) and `off` is the byte
offset inside that block's buffer; C pointer arithmetic then means block
base addresses are at least 8-aligned (vm_alloc returns page-aligned
memory and `sizeof(arena_t)` is a multiple of 8), so 8-alignment of the
pointer is 8-alignment of the offset. -/

/-- struct arena_t (src/arena.h): one chained block.  The `next` link is
represented by the position in the allocator's block list. -/
structure arena_t where
  size : Nat
  used : Nat
  buffer : Nat → Byte

/-- struct arena_allocator_t (src/arena.h): `blocks.head` is `current`. -/
structure arena_allocator_t where
  blocks : List arena_t
  default_block_size : Nat
  next_block_size : Nat

/-- A pointer returned by the allocator. -/
structure ArenaPtr where
  block : Nat
  off : Nat

/-- The 8-byte rounding `(size + 7) & ~(size_t)7` of arena_alloc, written
arithmetically over Nat. -/
def align8 (size : Nat) : Nat := (size + 7) - (size + 7) % 8

/-- arena_new_block (src/arena.c lines 25-46): block_size is
next_block_size raised to min_size if needed; the block is chained in
front of current and next_block_size becomes block_size * 2. -/
def arena_new_block (allocator : arena_allocator_t) (min_size : Nat) :
    arena_allocator_t :=
  let block_size := if min_size > allocator.next_block_size then min_size
    else allocator.next_block_size
  { allocator with
    blocks := { size := block_size, used := 0, buffer := fun _ => 0 } :: allocator.blocks,
    next_block_size := block_size * 2 }

/-- arena_create (src/arena.c lines 48-66): both size fields start at
default_block_size and the first block is pre-allocated. -/
def arena_create (default_block_size : Nat) : arena_allocator_t :=
  arena_new_block
    { blocks := [], default_block_size := default_block_size,
      next_block_size := default_block_size }
    default_block_size

/-- The final two lines of arena_alloc: `ptr = arena->buffer +
arena->used; arena->used += size`.  `size` is already rounded. -/
def arena_bump (allocator : arena_allocator_t) (size : Nat) :
    arena_allocator_t × ArenaPtr :=
  match allocator.blocks with
  | [] => (allocator, ⟨0, 0⟩)
  | arena :: rest =>
      ({ allocator with blocks := { arena with used := arena.used + size } :: rest },
        ⟨rest.length, arena.used⟩)

/-- arena_alloc (src/arena.c lines 68-83): round to 8 bytes, grow with
arena_new_block when current is missing or lacks room, then bump. -/
def arena_alloc (allocator : arena_allocator_t) (size : Nat) :
    arena_allocator_t × ArenaPtr :=
  let size2 := align8 size
  match allocator.blocks with
  | [] => arena_bump (arena_new_block allocator size2) size2
  | arena :: _ =>
      if arena.used + size2 > arena.size then
        arena_bump (arena_new_block allocator size2) size2
      else
        arena_bump allocator size2

/-- Write `src` into the buffer of the block with from-oldest index `i`
at offset `off` (the block at list position `length - 1 - i`). -/
def storeBlocks : List arena_t → Nat → Nat → List Byte → List arena_t
  | [], _, _, _ => []
  | b :: bs, i, off, src =>
      if i = bs.length then { b with buffer := memcpy b.buffer off src } :: bs
      else b :: storeBlocks bs i off src

/-- The effect of a memset/memcpy through a returned pointer. -/
def arena_store (a : arena_allocator_t) (p : ArenaPtr) (src : List Byte) :
    arena_allocator_t :=
  { a with blocks := storeBlocks a.blocks p.block p.off src }

/-- Look up the block a pointer refers to. -/
def loadBlock : List arena_t → Nat → Option arena_t
  | [], _ => none
  | b :: bs, i => if i = bs.length then some b else loadBlock bs i

/-- Read `len` bytes of arena memory at pointer `p` (the source operand of
the memcpy in arena_realloc). -/
def arena_load (a : arena_allocator_t) (p : ArenaPtr) (len : Nat) : List Byte :=
  match loadBlock a.blocks p.block with
  | none => List.replicate len 0
  | some b => (List.range len).map (fun i => b.buffer (p.off + i))

/-- arena_calloc (src/arena.c lines 85-92): `total = count * elem_size` is
computed in size_t, wrapping modulo 2^64 with no overflow check, then
allocated and zeroed with memset(ptr, 0, total). -/
def arena_calloc (a : arena_allocator_t) (count elem_size : Nat) :
    arena_allocator_t × ArenaPtr :=
  let total := (count * elem_size) % (2 ^ 64)
  let res := arena_alloc a total
  (arena_store res.1 res.2 (List.replicate total 0), res.2)

/-- arena_strdup (src/arena.c lines 94-102): `str` is the C string without
its terminator; strlen+1 bytes are allocated and the string plus its NUL
byte are copied. -/
def arena_strdup (a : arena_allocator_t) (str : List Byte) :
    arena_allocator_t × ArenaPtr :=
  let len := str.length + 1
  let res := arena_alloc a len
  (arena_store res.1 res.2 (str ++ [0]), res.2)

/-- arena_realloc (src/arena.c lines 104-111): always allocates fresh
space and copies min(old_size, new_size) bytes from the old region. -/
def arena_realloc (a : arena_allocator_t) (old_ptr : ArenaPtr)
    (old_size new_size : Nat) : arena_allocator_t × ArenaPtr :=
  let res := arena_alloc a new_size
  (arena_store res.1 res.2 (arena_load a old_ptr (min old_size new_size)), res.2)

/-- arena_reset (src/arena.c lines 113-122): zero every block's used
counter and reset the growth size to the default. -/
def arena_reset (a : arena_allocator_t) : arena_allocator_t :=
  { blocks := a.blocks.map (fun b => { b with used := 0 }),
    default_block_size := a.default_block_size,
    next_block_size := a.default_block_size }

/-- One arena operation, as exposed by src/arena.h. -/
inductive ArenaOp where
  | alloc (size : Nat)
  | calloc (count elem_size : Nat)
  | strdup (str : List Byte)
  | realloc (old_ptr : ArenaPtr) (old_size new_size : Nat)
  | reset

def arena_op_step (a : arena_allocator_t) : ArenaOp → arena_allocator_t
  | ArenaOp.alloc size => (arena_alloc a size).1
  | ArenaOp.calloc count elem_size => (arena_calloc a count elem_size).1
  | ArenaOp.strdup str => (arena_strdup a str).1
  | ArenaOp.realloc p old_size new_size => (arena_realloc a p old_size new_size).1
  | ArenaOp.reset => arena_reset a

def arena_op_run (a : arena_allocator_t) : List ArenaOp → arena_allocator_t
  | [] => a
  | op :: ops => arena_op_run (arena_op_step a op) ops

/-- struct arena_allocator_t of src/conpty-proxy/arena.c: no growth
counter and no pre-allocated first block. -/
structure proxy_arena_allocator_t where
  blocks : List arena_t
  default_block_size : Nat

/-- arena_create of src/conpty-proxy/arena.c (lines 3-13). -/
def proxy_arena_create (default_block_size : Nat) : proxy_arena_allocator_t :=
  { blocks := [], default_block_size := default_block_size }

def proxy_arena_bump (a : proxy_arena_allocator_t) (size : Nat) :
    proxy_arena_allocator_t × ArenaPtr :=
  match a.blocks with
  | [] => (a, ⟨0, 0⟩)
  | arena :: rest =>
      ({ a with blocks := { arena with used := arena.used + size } :: rest },
        ⟨rest.length, arena.used⟩)

/-- arena_alloc of src/conpty-proxy/arena.c (lines 15-45): a new block is
sized max(size, default_block_size); there is no doubling and no cap. -/
def proxy_arena_alloc (a : proxy_arena_allocator_t) (size : Nat) :
    proxy_arena_allocator_t × ArenaPtr :=
  let size2 := align8 size
  let grown := { a with blocks :=
    { size := if size2 > a.default_block_size then size2 else a.default_block_size,
      used := 0, buffer := fun _ => 0 } :: a.blocks }
  match a.blocks with
  | [] => proxy_arena_bump grown size2
  | arena :: _ =>
      if arena.used + size2 > arena.size then proxy_arena_bump grown size2
      else proxy_arena_bump a size2

def arena_alloc_run (a : arena_allocator_t) : List Nat → arena_allocator_t
  | [] => a
  | r :: rs => arena_alloc_run (arena_alloc a r).1 rs

/-- The growth law actually implemented by src/arena.c: next_block_size is
2^(number of blocks) times the initial size and the i-th block from the
newest has size 2^(blocks - 1 - i) times the initial size - with no upper
cap. -/
def growthInv (d : Nat) (a : arena_allocator_t) : Prop :=
  a.blocks ≠ [] ∧
  a.next_block_size = 2 ^ a.blocks.length * d ∧
  ∀ i, (hi : i < a.blocks.length) →
    (a.blocks.get ⟨i, hi⟩).size = 2 ^ (a.blocks.length - 1 - i) * d

theorem growthInv_create (d : Nat) : growthInv d (arena_create d) := by
  refine ⟨?_, ?_, ?_⟩
  · simp [arena_create, arena_new_block]
  · show (if d > d then d else d) * 2 = 2 ^ (1 : Nat) * d
    rw [if_neg (lt_irrefl d)]
    ring
  · intro i hi
    have hi1 : i < 1 := hi
    have : i = 0 := by omega
    subst this
    show (if d > d then d else d) = 2 ^ (1 - 1 - 0) * d
    rw [if_neg (lt_irrefl d)]
    simp

theorem growthInv_alloc (d r : Nat) (a : arena_allocator_t)
    (hr : align8 r ≤ d) (h : growthInv d a) : growthInv d (arena_alloc a r).1 := by
  obtain ⟨blocks, dflt, next⟩ := a
  obtain ⟨hne, hnext, hsz⟩ := h
  rcases blocks with _ | ⟨head, rest⟩
  · exact absurd rfl hne
  have hnext2 : next = 2 ^ (rest.length + 1) * d := hnext
  have hd2 : d ≤ next := by
    have hp : 0 < 2 ^ (rest.length + 1) := Nat.pos_pow_of_pos _ (by omega)
    rw [hnext2]
    exact Nat.le_mul_of_pos_left d hp
  have hnn : ¬ align8 r > next := by omega
  by_cases hfit : head.used + align8 r > head.size
  · have key : (arena_alloc (arena_allocator_t.mk (head :: rest) dflt next) r).1
        = arena_allocator_t.mk
            (arena_t.mk next (0 + align8 r) (fun _ => 0) :: head :: rest) dflt (next * 2) := by
      show (if head.used + align8 r > head.size
          then arena_bump (arena_new_block
            (arena_allocator_t.mk (head :: rest) dflt next) (align8 r)) (align8 r)
          else arena_bump
            (arena_allocator_t.mk (head :: rest) dflt next) (align8 r)).1 = _
      rw [if_pos hfit]
      show (arena_bump (arena_allocator_t.mk
          (arena_t.mk (if align8 r > next then align8 r else next) 0 (fun _ => 0) :: head :: rest)
          dflt ((if align8 r > next then align8 r else next) * 2)) (align8 r)).1 = _
      rw [if_neg hnn]
      rfl
    rw [key]
    refine ⟨by simp, ?_, ?_⟩
    · show next * 2 = 2 ^ (rest.length + 1 + 1) * d
      rw [hnext2, pow_succ]
      ring
    · intro i hi
      cases i with
      | zero =>
        show next = 2 ^ (rest.length + 1 + 1 - 1 - 0) * d
        have he : rest.length + 1 + 1 - 1 - 0 = rest.length + 1 := by omega
        rw [he]
        exact hnext2
      | succ j =>
        have hj : j < rest.length + 1 := by
          have h1 : j + 1 < rest.length + 1 + 1 := by simpa using hi
          omega
        have h1 := hsz j hj
        have he : rest.length + 1 + 1 - 1 - (j + 1) = rest.length + 1 - 1 - j := by omega
        show ((head :: rest).get ⟨j, hj⟩).size = 2 ^ (rest.length + 1 + 1 - 1 - (j + 1)) * d
        rw [he]
        exact h1
  · have key : (arena_alloc (arena_allocator_t.mk (head :: rest) dflt next) r).1
        = arena_allocator_t.mk
            (arena_t.mk head.size (head.used + align8 r) head.buffer :: rest) dflt next := by
      show (if head.used + align8 r > head.size
          then arena_bump (arena_new_block
            (arena_allocator_t.mk (head :: rest) dflt next) (align8 r)) (align8 r)
          else arena_bump
            (arena_allocator_t.mk (head :: rest) dflt next) (align8 r)).1 = _
      rw [if_neg hfit]
      rfl
    rw [key]
    refine ⟨by simp, hnext2, ?_⟩
    intro i hi
    cases i with
    | zero =>
      show head.size = 2 ^ (rest.length + 1 - 1 - 0) * d
      exact hsz 0 (by simp)
    | succ j =>
      have hj : j + 1 < rest.length + 1 := by simpa using hi
      exact hsz (j + 1) hj

theorem growthInv_run (d : Nat) (rs : List Nat) :
    ∀ a, growthInv d a → (∀ r ∈ rs, align8 r ≤ d) →
    growthInv d (arena_alloc_run a rs) := by
  induction rs with
  | nil => intro a h _; exact h
  | cons r rs ih =>
    intro a h hall
    have h1 : align8 r ≤ d := hall r (by simp)
    exact ih _ (growthInv_alloc d r a h1 h)
      (fun x hx => hall x (by simp [hx]))

/-- C3 counterexample: with initial block size 8 MiB, four allocations of
8 MiB each force two new blocks (blocks.length = 3). The claim predicts the
second forced block has size min(2^2 x 8 MiB, 16 MiB) = 16 MiB; the code
allocates 32 MiB, because arena_new_block has no 16 MiB cap. No single
request exceeded the claimed cap, so the claim's escape clause does not
apply. -/
theorem arena_growth_cap_counterexample :
    (arena_alloc (arena_alloc (arena_alloc (arena_alloc
          (arena_create 8388608) 8388608).1 8388608).1 8388608).1 8388608).1.blocks.length
        = 3 ∧
    ((arena_alloc (arena_alloc (arena_alloc (arena_alloc
          (arena_create 8388608) 8388608).1 8388608).1 8388608).1 8388608).1.blocks.head?.map
        arena_t.size) = some 33554432 ∧
    (33554432 : Nat) ≠ min (2 ^ 2 * 8388608) (16 * 1024 * 1024) ∧
    (8388608 : Nat) ≤ 16 * 1024 * 1024 := by
  decide

/-- C3 (amended): arena_new_block sizes a forced block as
max(request, next_block_size) with no upper cap and doubles
next_block_size; hence for any allocation run whose rounded requests stay
within the initial block size, after the k-th forced new-block allocation
the current block's size is exactly 2^k x initial_size, unboundedly.  The
proxy variant (src/conpty-proxy/arena.c) has no growth counter at all: its
new blocks are sized max(request, default_block_size) and the default
never changes. -/
theorem arena_growth_doubling (d : Nat) (rs : List Nat)
    (h : ∀ r ∈ rs, align8 r ≤ d) :
    growthInv d (arena_alloc_run (arena_create d) rs) ∧
    (∀ (x : proxy_arena_allocator_t) (s : Nat),
      (proxy_arena_alloc x s).1.default_block_size = x.default_block_size) ∧
    (∀ (d2 s : Nat),
      (proxy_arena_alloc (proxy_arena_create d2) s).1.blocks
        = [arena_t.mk (if align8 s > d2 then align8 s else d2) (0 + align8 s)
            (fun _ => 0)]) := by
  refine ⟨growthInv_run d rs (arena_create d) (growthInv_create d) h, ?_, ?_⟩
  · intro x s
    obtain ⟨bl, df⟩ := x
    rcases bl with _ | ⟨hd, tl⟩
    · rfl
    · show (if hd.used + align8 s > hd.size
          then proxy_arena_bump _ (align8 s)
          else proxy_arena_bump (proxy_arena_allocator_t.mk (hd :: tl) df)
            (align8 s)).1.default_block_size = df
      split <;> rfl
  · intro d2 s
    rfl

/-- C3 witness for the amended growth law: initial size 8, two allocations
of 8 bytes each (the second one forces a new block of size 16 = 2^1 x 8). -/
theorem arena_growth_doubling_witness :
    growthInv 8 (arena_alloc_run (arena_create 8) [8, 8]) ∧
    (∀ (x : proxy_arena_allocator_t) (s : Nat),
      (proxy_arena_alloc x s).1.default_block_size = x.default_block_size) ∧
    (∀ (d2 s : Nat),
      (proxy_arena_alloc (proxy_arena_create d2) s).1.blocks
        = [arena_t.mk (if align8 s > d2 then align8 s else d2) (0 + align8 s)
            (fun _ => 0)]) :=
  arena_growth_doubling 8 [8, 8] (by decide)

/-- C10: arena_calloc computes `count * elem_size` in wrapping size_t
arithmetic with no overflow check.  Whenever the true product is at least
2^64, the wrapped total is strictly smaller than the product (fewer usable
bytes than requested), even after 8-byte rounding, and arena_calloc behaves
exactly as an honest calloc of the wrapped total (allocating and zeroing
only that many bytes, still returning a pointer on success). -/
theorem arena_calloc_wraps (a : arena_allocator_t) (count elem_size : Nat)
    (h : 2 ^ 64 ≤ count * elem_size) :
    (count * elem_size) % 2 ^ 64 < count * elem_size ∧
    align8 ((count * elem_size) % 2 ^ 64) < count * elem_size ∧
    arena_calloc a count elem_size
      = arena_calloc a 1 ((count * elem_size) % 2 ^ 64) := by
  have hM : 0 < 2 ^ 64 := Nat.pos_pow_of_pos _ (by omega)
  have hmod : (count * elem_size) % 2 ^ 64 < 2 ^ 64 := Nat.mod_lt _ hM
  have hdm := Nat.div_add_mod (count * elem_size) (2 ^ 64)
  have hdiv : 1 ≤ count * elem_size / 2 ^ 64 := by
    rw [Nat.le_div_iff_mul_le hM]
    omega
  have hgap : (count * elem_size) % 2 ^ 64 + 2 ^ 64 ≤ count * elem_size := by
    nlinarith [hdm, hdiv]
  have halign : align8 ((count * elem_size) % 2 ^ 64)
      ≤ (count * elem_size) % 2 ^ 64 + 7 := by
    unfold align8
    omega
  refine ⟨by omega, by omega, ?_⟩
  unfold arena_calloc
  rw [Nat.one_mul, Nat.mod_mod_of_dvd _ dvd_rfl]

/-- C10 witness: count = 16 and elem_size = 2^60 + 1 overflow size_t; the
wrapped total is 16 bytes. -/
theorem arena_calloc_wraps_witness :
    (16 * (2 ^ 60 + 1)) % 2 ^ 64 < 16 * (2 ^ 60 + 1) ∧
    align8 ((16 * (2 ^ 60 + 1)) % 2 ^ 64) < 16 * (2 ^ 60 + 1) ∧
    arena_calloc (arena_create 64) 16 (2 ^ 60 + 1)
      = arena_calloc (arena_create 64) 1 ((16 * (2 ^ 60 + 1)) % 2 ^ 64) :=
  arena_calloc_wraps (arena_create 64) 16 (2 ^ 60 + 1) (by norm_num)

theorem align8_mod (s : Nat) : align8 s % 8 = 0 := by
  unfold align8
  omega

theorem align8_le (s : Nat) : s ≤ align8 s := by
  unfold align8
  omega

/-- Default block used for out-of-range getD lookups. -/
def zeroBlock : arena_t := arena_t.mk 0 0 (fun _ => 0)

/-- Every block satisfies used <= size and keeps its bump offset 8-byte
aligned. -/
def blocksWF (a : arena_allocator_t) : Prop :=
  ∀ b ∈ a.blocks, b.used ≤ b.size ∧ b.used % 8 = 0

theorem arena_alloc_empty_fst (df next s : Nat) :
    (arena_alloc (arena_allocator_t.mk [] df next) s).1
      = arena_allocator_t.mk
          [arena_t.mk (if align8 s > next then align8 s else next) (0 + align8 s) (fun _ => 0)]
          df ((if align8 s > next then align8 s else next) * 2) := rfl

theorem arena_alloc_empty_snd (df next s : Nat) :
    (arena_alloc (arena_allocator_t.mk [] df next) s).2 = ⟨0, 0⟩ := rfl

theorem arena_alloc_fit_fst (df next s : Nat) (head : arena_t) (rest : List arena_t)
    (hfit : ¬ head.used + align8 s > head.size) :
    (arena_alloc (arena_allocator_t.mk (head :: rest) df next) s).1
      = arena_allocator_t.mk
          (arena_t.mk head.size (head.used + align8 s) head.buffer :: rest) df next := by
  show (if head.used + align8 s > head.size
      then arena_bump (arena_new_block
        (arena_allocator_t.mk (head :: rest) df next) (align8 s)) (align8 s)
      else arena_bump
        (arena_allocator_t.mk (head :: rest) df next) (align8 s)).1 = _
  rw [if_neg hfit]
  rfl

theorem arena_alloc_fit_snd (df next s : Nat) (head : arena_t) (rest : List arena_t)
    (hfit : ¬ head.used + align8 s > head.size) :
    (arena_alloc (arena_allocator_t.mk (head :: rest) df next) s).2
      = ⟨rest.length, head.used⟩ := by
  show (if head.used + align8 s > head.size
      then arena_bump (arena_new_block
        (arena_allocator_t.mk (head :: rest) df next) (align8 s)) (align8 s)
      else arena_bump
        (arena_allocator_t.mk (head :: rest) df next) (align8 s)).2 = _
  rw [if_neg hfit]
  rfl

theorem arena_alloc_grow_fst (df next s : Nat) (head : arena_t) (rest : List arena_t)
    (hfit : head.used + align8 s > head.size) :
    (arena_alloc (arena_allocator_t.mk (head :: rest) df next) s).1
      = arena_allocator_t.mk
          (arena_t.mk (if align8 s > next then align8 s else next) (0 + align8 s)
              (fun _ => 0) :: head :: rest)
          df ((if align8 s > next then align8 s else next) * 2) := by
  show (if head.used + align8 s > head.size
      then arena_bump (arena_new_block
        (arena_allocator_t.mk (head :: rest) df next) (align8 s)) (align8 s)
      else arena_bump
        (arena_allocator_t.mk (head :: rest) df next) (align8 s)).1 = _
  rw [if_pos hfit]
  rfl

theorem arena_alloc_grow_snd (df next s : Nat) (head : arena_t) (rest : List arena_t)
    (hfit : head.used + align8 s > head.size) :
    (arena_alloc (arena_allocator_t.mk (head :: rest) df next) s).2
      = ⟨(head :: rest).length, 0⟩ := by
  show (if head.used + align8 s > head.size
      then arena_bump (arena_new_block
        (arena_allocator_t.mk (head :: rest) df next) (align8 s)) (align8 s)
      else arena_bump
        (arena_allocator_t.mk (head :: rest) df next) (align8 s)).2 = _
  rw [if_pos hfit]
  rfl

/-- storeBlocks only rewrites one block's buffer: every resulting block
has the used and size of a block of the input list. -/
theorem storeBlocks_used_size (i off : Nat) (src : List Byte) :
    ∀ bs : List arena_t, ∀ b ∈ storeBlocks bs i off src,
      ∃ b0 ∈ bs, b.used = b0.used ∧ b.size = b0.size := by
  intro bs
  induction bs with
  | nil => intro b hb; exact absurd hb (by simp [storeBlocks])
  | cons hd tl ih =>
    intro b hb
    unfold storeBlocks at hb
    by_cases hi : i = tl.length
    · rw [if_pos hi] at hb
      rcases List.mem_cons.mp hb with h1 | h1
      · exact ⟨hd, by simp, by rw [h1], by rw [h1]⟩
      · exact ⟨b, by simp [h1], rfl, rfl⟩
    · rw [if_neg hi] at hb
      rcases List.mem_cons.mp hb with h1 | h1
      · exact ⟨hd, by simp, by rw [h1], by rw [h1]⟩
      · obtain ⟨b0, hb0, he1, he2⟩ := ih b h1
        exact ⟨b0, by simp [hb0], he1, he2⟩

theorem arena_store_wf (a : arena_allocator_t) (p : ArenaPtr) (src : List Byte)
    (h : blocksWF a) : blocksWF (arena_store a p src) := by
  intro b hb
  obtain ⟨b0, hb0, he1, he2⟩ := storeBlocks_used_size p.block p.off src a.blocks b hb
  rw [he1, he2]
  exact h b0 hb0

theorem arena_alloc_wf (a : arena_allocator_t) (s : Nat) (h : blocksWF a) :
    blocksWF (arena_alloc a s).1 ∧ (arena_alloc a s).2.off % 8 = 0 := by
  obtain ⟨bl, df, next⟩ := a
  rcases bl with _ | ⟨head, rest⟩
  · rw [arena_alloc_empty_fst, arena_alloc_empty_snd]
    refine ⟨?_, by simp⟩
    intro b hb
    have hb2 : b = arena_t.mk (if align8 s > next then align8 s else next)
        (0 + align8 s) (fun _ => 0) := by simpa using hb
    subst hb2
    have h1 := align8_mod s
    refine ⟨?_, by simpa using h1⟩
    show 0 + align8 s ≤ (if align8 s > next then align8 s else next)
    split <;> omega
  · have hh := h head (by simp)
    by_cases hfit : head.used + align8 s > head.size
    · rw [arena_alloc_grow_fst df next s head rest hfit,
        arena_alloc_grow_snd df next s head rest hfit]
      refine ⟨?_, by simp⟩
      intro b hb
      rcases List.mem_cons.mp hb with h1 | h1
      · subst h1
        have h1 := align8_mod s
        refine ⟨?_, by simpa using h1⟩
        show 0 + align8 s ≤ (if align8 s > next then align8 s else next)
        split <;> omega
      · exact h b (by simp [h1])
    · rw [arena_alloc_fit_fst df next s head rest hfit,
        arena_alloc_fit_snd df next s head rest hfit]
      have h1 := align8_mod s
      refine ⟨?_, by show head.used % 8 = 0; omega⟩
      intro b hb
      rcases List.mem_cons.mp hb with h2 | h2
      · subst h2
        refine ⟨by show head.used + align8 s ≤ head.size; omega, ?_⟩
        show (head.used + align8 s) % 8 = 0
        omega
      · exact h b (by simp [h2])

theorem arena_op_step_wf (a : arena_allocator_t) (op : ArenaOp) (h : blocksWF a) :
    blocksWF (arena_op_step a op) := by
  cases op with
  | alloc s => exact (arena_alloc_wf a s h).1
  | calloc c e => exact arena_store_wf _ _ _ ((arena_alloc_wf a _ h).1)
  | strdup str => exact arena_store_wf _ _ _ ((arena_alloc_wf a _ h).1)
  | realloc p o n => exact arena_store_wf _ _ _ ((arena_alloc_wf a _ h).1)
  | reset =>
    intro b hb
    rcases List.mem_map.mp hb with ⟨b0, _, he⟩
    rw [← he]
    exact ⟨by simp, by simp⟩

theorem arena_op_run_wf (ops : List ArenaOp) :
    ∀ a, blocksWF a → blocksWF (arena_op_run a ops) := by
  induction ops with
  | nil => intro a h; exact h
  | cons op ops ih => intro a h; exact ih _ (arena_op_step_wf a op h)

theorem arena_create_wf (d : Nat) : blocksWF (arena_create d) := by
  intro b hb
  have hb2 : b = arena_t.mk (if d > d then d else d) 0 (fun _ => 0) := by
    simpa [arena_create, arena_new_block] using hb
  subst hb2
  exact ⟨by simp, by simp⟩

/-- Non-interference of arena_alloc: it either bumps the current block's
used offset (same size, same buffer, tail untouched) or prepends a fresh
block large enough for the request in front of the untouched old chain;
the default size is never changed and next_block_size changes only on
growth. -/
theorem arena_alloc_preserves (a : arena_allocator_t) (s : Nat) (head : arena_t)
    (rest : List arena_t) (hb : a.blocks = head :: rest) :
    (arena_alloc a s).1.default_block_size = a.default_block_size ∧
    (((arena_alloc a s).1.blocks
          = arena_t.mk head.size (head.used + align8 s) head.buffer :: rest ∧
        (arena_alloc a s).1.next_block_size = a.next_block_size)
      ∨ (∃ nb : arena_t, nb.used = 0 + align8 s ∧ align8 s ≤ nb.size ∧
          (arena_alloc a s).1.blocks = nb :: head :: rest)) := by
  obtain ⟨bl, df, next⟩ := a
  have hb2 : bl = head :: rest := hb
  subst hb2
  by_cases hfit : head.used + align8 s > head.size
  · rw [arena_alloc_grow_fst df next s head rest hfit]
    refine ⟨rfl, Or.inr ?_⟩
    refine ⟨arena_t.mk (if align8 s > next then align8 s else next) (0 + align8 s)
      (fun _ => 0), rfl, ?_, rfl⟩
    show align8 s ≤ (if align8 s > next then align8 s else next)
    split <;> omega
  · rw [arena_alloc_fit_fst df next s head rest hfit]
    exact ⟨rfl, Or.inl ⟨rfl, rfl⟩⟩

/-- C8: after every sequence of arena operations, every chained block has
used <= size, every pointer returned by arena_alloc is 8-byte aligned
(its offset, hence its address, is a multiple of 8), and an allocation
never moves or invalidates a previously returned pointer: it either only
advances the current block's used offset or prepends a fresh block,
leaving every earlier block's buffer contents and used offset unchanged
(and only the growth counter next_block_size besides). -/
theorem arena_invariants (d : Nat) (ops : List ArenaOp) :
    (∀ i, i < (arena_op_run (arena_create d) ops).blocks.length →
      ((arena_op_run (arena_create d) ops).blocks.getD i zeroBlock).used
          ≤ ((arena_op_run (arena_create d) ops).blocks.getD i zeroBlock).size ∧
      ((arena_op_run (arena_create d) ops).blocks.getD i zeroBlock).used % 8 = 0) ∧
    (∀ s, (arena_alloc (arena_op_run (arena_create d) ops) s).2.off % 8 = 0) ∧
    (∀ s head rest,
      (arena_op_run (arena_create d) ops).blocks = head :: rest →
      (arena_alloc (arena_op_run (arena_create d) ops) s).1.default_block_size
          = (arena_op_run (arena_create d) ops).default_block_size ∧
      (((arena_alloc (arena_op_run (arena_create d) ops) s).1.blocks
            = arena_t.mk head.size (head.used + align8 s) head.buffer :: rest ∧
          (arena_alloc (arena_op_run (arena_create d) ops) s).1.next_block_size
            = (arena_op_run (arena_create d) ops).next_block_size)
        ∨ (∃ nb : arena_t, nb.used = 0 + align8 s ∧ align8 s ≤ nb.size ∧
            (arena_alloc (arena_op_run (arena_create d) ops) s).1.blocks
              = nb :: head :: rest))) := by
  have hwf : blocksWF (arena_op_run (arena_create d) ops) :=
    arena_op_run_wf ops _ (arena_create_wf d)
  refine ⟨?_, ?_, ?_⟩
  · intro i hi
    have hmem : (arena_op_run (arena_create d) ops).blocks.getD i zeroBlock
        ∈ (arena_op_run (arena_create d) ops).blocks := by
      rw [List.getD_eq_getElem _ _ hi]
      exact List.getElem_mem hi
    exact hwf _ hmem
  · intro s
    exact (arena_alloc_wf _ s hwf).2
  · intro s head rest hb
    exact arena_alloc_preserves _ s head rest hb

/-- C8 witness: initial size 64, one allocation of 5 bytes (rounded to 8);
the invariants instantiated at the head block, a second allocation of 3
bytes, and the concrete head block of the run. -/
theorem arena_invariants_witness :
    (((arena_op_run (arena_create 64) [ArenaOp.alloc 5]).blocks.getD 0 zeroBlock).used
        ≤ ((arena_op_run (arena_create 64) [ArenaOp.alloc 5]).blocks.getD 0 zeroBlock).size ∧
      ((arena_op_run (arena_create 64) [ArenaOp.alloc 5]).blocks.getD 0 zeroBlock).used % 8
        = 0) ∧
    (arena_alloc (arena_op_run (arena_create 64) [ArenaOp.alloc 5]) 3).2.off % 8 = 0 ∧
    ((arena_alloc (arena_op_run (arena_create 64) [ArenaOp.alloc 5]) 3).1.default_block_size
        = (arena_op_run (arena_create 64) [ArenaOp.alloc 5]).default_block_size ∧
      (((arena_alloc (arena_op_run (arena_create 64) [ArenaOp.alloc 5]) 3).1.blocks
            = arena_t.mk (arena_t.mk 64 8 (fun _ => 0)).size
                ((arena_t.mk 64 8 (fun _ => 0)).used + align8 3)
                (arena_t.mk 64 8 (fun _ => 0)).buffer :: [] ∧
          (arena_alloc (arena_op_run (arena_create 64) [ArenaOp.alloc 5]) 3).1.next_block_size
            = (arena_op_run (arena_create 64) [ArenaOp.alloc 5]).next_block_size)
        ∨ (∃ nb : arena_t, nb.used = 0 + align8 3 ∧ align8 3 ≤ nb.size ∧
            (arena_alloc (arena_op_run (arena_create 64) [ArenaOp.alloc 5]) 3).1.blocks
              = nb :: arena_t.mk 64 8 (fun _ => 0) :: []))) :=
  ⟨(arena_invariants 64 [ArenaOp.alloc 5]).1 0 (by decide),
    (arena_invariants 64 [ArenaOp.alloc 5]).2.1 3,
    (arena_invariants 64 [ArenaOp.alloc 5]).2.2 3 (arena_t.mk 64 8 (fun _ => 0)) [] rfl⟩

/-!  Output pumps.  The proxy pump is iocp_entry
(src/conpty-proxy/conpty_proxy.c lines 365-402); the in-process pump is
conpty_output_thread (src/conpty.c lines 130-174).  A run is the sequence
of byte chunks delivered by consecutive completed reads of the session's
output endpoint, in the order the child produced them. -/

/-- State of the proxy's IOCP output pump: the active double-buffer index
and the (buffer index, bytes) pairs forwarded to std_out so far. -/
structure IocpPump where
  io_buf_active : Nat
  forwarded : List (Nat × List Byte)

/-- One COMPLETION_KEY_IO_READ completion delivering `chunk` (the bytes
now in io_buf[io_buf_active]): capture current_buf, toggle the active
index and issue the next read into the other buffer, then WriteFile the
current buffer to std_out when bytes_readed > 0. -/
def iocp_read_completion (st : IocpPump) (chunk : List Byte) : IocpPump :=
  let current_buf := st.io_buf_active
  if chunk.length > 0 then
    { io_buf_active := 1 - current_buf,
      forwarded := st.forwarded ++ [(current_buf, chunk)] }
  else
    { io_buf_active := 1 - current_buf, forwarded := st.forwarded }

def iocp_run (st : IocpPump) : List (List Byte) → IocpPump
  | [] => st
  | chunk :: chunks => iocp_run (iocp_read_completion st chunk) chunks

/-- conpty_new starts with io_buf_active = 0 and nothing forwarded. -/
def iocp_init : IocpPump := { io_buf_active := 0, forwarded := [] }

/-- sizeof(((ConPTYState*)0)->pending_output) = 262144 (conpty.h). -/
def PENDING_CAP : Nat := 262144

/-- State of the in-process output pump: its local current_buf, the
pending_output buffer shared with the consumer, and the double-buffer
indices used by the completed reads, in order. -/
structure ConptyPump where
  current_buf : Nat
  pending : List Byte
  forwardedIdx : List Nat

/-- One successful nonzero read of `chunk` into output_buf[current_buf]
(conpty.c lines 140-169): copy min(bytes_read, space) bytes into
pending_output (silently dropping the rest), then toggle current_buf. -/
def conpty_read_step (st : ConptyPump) (chunk : List Byte) : ConptyPump :=
  let space := PENDING_CAP - st.pending.length
  let to_copy := min chunk.length space
  { current_buf := 1 - st.current_buf,
    pending := st.pending ++ chunk.take to_copy,
    forwardedIdx := st.forwardedIdx ++ [st.current_buf] }

def conpty_run (st : ConptyPump) : List (List Byte) → ConptyPump
  | [] => st
  | chunk :: chunks => conpty_run (conpty_read_step st chunk) chunks

/-- conpty_output_thread starts with current_buf = 0; the pending buffer
is empty and the consumer performs no drain during the run. -/
def conpty_pump_init : ConptyPump :=
  { current_buf := 0, pending := [], forwardedIdx := [] }

/-- The strictly alternating (index, chunk) forwarding record starting
from buffer `start`. -/
def altSeq (start : Nat) : List (List Byte) → List (Nat × List Byte)
  | [] => []
  | c :: cs => (start, c) :: altSeq (1 - start) cs

/-- The strictly alternating index sequence of length n starting at
`start`. -/
def altIdx (start : Nat) : Nat → List Nat
  | 0 => []
  | Nat.succ n => start :: altIdx (1 - start) n

theorem altSeq_map_snd (cs : List (List Byte)) :
    ∀ start, (altSeq start cs).map Prod.snd = cs := by
  induction cs with
  | nil => intro start; rfl
  | cons c cs ih => intro start; simp [altSeq, ih]

theorem altSeq_fst (cs : List (List Byte)) :
    ∀ start i, start ≤ 1 → i < cs.length →
    ((altSeq start cs).getD i (0, [])).1 = (start + i) % 2 := by
  induction cs with
  | nil => intro start i _ hi; simp at hi
  | cons c cs ih =>
    intro start i hstart hi
    cases i with
    | zero =>
      show start = (start + 0) % 2
      omega
    | succ j =>
      show ((altSeq (1 - start) cs).getD j (0, [])).1 = (start + (j + 1)) % 2
      rw [ih (1 - start) j (by omega) (by simpa using hi)]
      omega

theorem altIdx_getD (n : Nat) :
    ∀ start i, start ≤ 1 → i < n →
    (altIdx start n).getD i 0 = (start + i) % 2 := by
  induction n with
  | zero => intro start i _ hi; omega
  | succ m ih =>
    intro start i hstart hi
    cases i with
    | zero =>
      show start = (start + 0) % 2
      omega
    | succ j =>
      show (altIdx (1 - start) m).getD j 0 = (start + (j + 1)) % 2
      rw [ih (1 - start) j (by omega) (by omega)]
      omega

theorem iocp_run_forwarded (chunks : List (List Byte)) :
    ∀ st, (∀ c ∈ chunks, c ≠ []) →
    (iocp_run st chunks).forwarded = st.forwarded ++ altSeq st.io_buf_active chunks := by
  induction chunks with
  | nil => intro st _; simp [iocp_run, altSeq]
  | cons c cs ih =>
    intro st hne
    have hc : c ≠ [] := hne c (by simp)
    have hlen : c.length > 0 := List.length_pos.mpr hc
    show (iocp_run (iocp_read_completion st c) cs).forwarded = _
    rw [ih _ (fun x hx => hne x (by simp [hx]))]
    unfold iocp_read_completion
    rw [if_pos hlen]
    simp [altSeq]

theorem conpty_run_idx (chunks : List (List Byte)) :
    ∀ st, (conpty_run st chunks).forwardedIdx
      = st.forwardedIdx ++ altIdx st.current_buf chunks.length := by
  induction chunks with
  | nil => intro st; simp [conpty_run, altIdx]
  | cons c cs ih =>
    intro st
    show (conpty_run (conpty_read_step st c) cs).forwardedIdx = _
    rw [ih]
    simp [conpty_read_step, altIdx]

theorem conpty_run_pending (chunks : List (List Byte)) :
    ∀ st, st.pending.length ≤ PENDING_CAP →
    (conpty_run st chunks).pending
      = (st.pending ++ chunks.flatten).take PENDING_CAP := by
  induction chunks with
  | nil =>
    intro st hlen
    simp only [conpty_run, List.flatten_nil, List.append_nil]
    exact (List.take_of_length_le hlen).symm
  | cons c cs ih =>
    intro st hlen
    show (conpty_run (conpty_read_step st c) cs).pending = _
    have hlen2 : (conpty_read_step st c).pending.length ≤ PENDING_CAP := by
      show (st.pending ++ c.take (min c.length (PENDING_CAP - st.pending.length))).length
        ≤ PENDING_CAP
      rw [List.length_append, List.length_take]
      omega
    rw [ih _ hlen2]
    show ((st.pending ++ c.take (min c.length (PENDING_CAP - st.pending.length)))
        ++ cs.flatten).take PENDING_CAP
      = (st.pending ++ (c :: cs).flatten).take PENDING_CAP
    have htk : c.take (min c.length (PENDING_CAP - st.pending.length))
        = c.take (PENDING_CAP - st.pending.length) := by
      rcases Nat.le_total c.length (PENDING_CAP - st.pending.length) with h | h
      · rw [Nat.min_eq_left h, List.take_length,
          List.take_of_length_le h]
      · rw [Nat.min_eq_right h]
    rw [htk, List.append_assoc, List.flatten_cons]
    rw [List.take_append_eq_append_take, List.take_append_eq_append_take]
    rw [List.take_append_eq_append_take, List.take_append_eq_append_take,
      List.take_take, Nat.min_self]
    congr 1
    rw [List.length_take]
    have harg : PENDING_CAP - st.pending.length
          - min (PENDING_CAP - st.pending.length) c.length
        = PENDING_CAP - st.pending.length - c.length := by omega
    rw [harg]

theorem altIdx_length (n : Nat) : ∀ start, (altIdx start n).length = n := by
  induction n with
  | zero => intro start; rfl
  | succ m ih => intro start; simp [altIdx, ih]

/-- C2 counterexample: starting from an empty pending buffer with no
consumer drain, the in-process pump reads 262144 bytes and then one more
byte; the byte is silently dropped (pending_output is full), so the bytes
delivered to the consumer are not the concatenation of the bytes read. -/
theorem conpty_pump_drop_counterexample :
    (conpty_run conpty_pump_init [List.replicate PENDING_CAP 65, [66]]).pending
      ≠ List.replicate PENDING_CAP 65 ++ [66] := by
  intro heq
  have h := conpty_run_pending [List.replicate PENDING_CAP 65, [66]]
    conpty_pump_init (Nat.zero_le _)
  have hle : (conpty_run conpty_pump_init
      [List.replicate PENDING_CAP 65, [66]]).pending.length ≤ PENDING_CAP := by
    rw [h, List.length_take]
    exact Nat.min_le_left _ _
  rw [heq, List.length_append, List.length_replicate] at hle
  simp at hle

/-- C2 (amended): for a run of consecutive completed nonzero-length reads,
both output pumps forward from double buffers in strict alternation
0,1,0,1,...; the proxy pump forwards exactly the chunks read, in order,
while the in-process pump delivers (with no intervening consumer drain)
only the first 262144 bytes of the concatenation of the chunks read -
bytes beyond the pending_output capacity are dropped, so delivery equals
the full concatenation only while the pending buffer has room. -/
theorem output_pump_alternation (chunks : List (List Byte))
    (hne : ∀ c ∈ chunks, c ≠ []) :
    ((iocp_run iocp_init chunks).forwarded.map Prod.snd = chunks) ∧
    (∀ i, i < (iocp_run iocp_init chunks).forwarded.length →
      ((iocp_run iocp_init chunks).forwarded.getD i (0, [])).1 = i % 2) ∧
    (∀ i, i < (conpty_run conpty_pump_init chunks).forwardedIdx.length →
      (conpty_run conpty_pump_init chunks).forwardedIdx.getD i 0 = i % 2) ∧
    (conpty_run conpty_pump_init chunks).pending
      = chunks.flatten.take PENDING_CAP := by
  have hf := iocp_run_forwarded chunks iocp_init hne
  rw [show iocp_init.forwarded = [] from rfl, List.nil_append,
    show iocp_init.io_buf_active = 0 from rfl] at hf
  have hidx := conpty_run_idx chunks conpty_pump_init
  rw [show conpty_pump_init.forwardedIdx = [] from rfl, List.nil_append,
    show conpty_pump_init.current_buf = 0 from rfl] at hidx
  have hseqlen : (altSeq 0 chunks).length = chunks.length := by
    have h2 := congrArg List.length (altSeq_map_snd chunks 0)
    simpa using h2
  refine ⟨?_, ?_, ?_, ?_⟩
  · rw [hf]
    exact altSeq_map_snd chunks 0
  · intro i hi
    rw [hf] at hi ⊢
    rw [altSeq_fst chunks 0 i (by omega) (by omega)]
    omega
  · intro i hi
    rw [hidx] at hi ⊢
    rw [altIdx_length chunks.length 0] at hi
    rw [altIdx_getD chunks.length 0 i (by omega) hi]
    omega
  · have h := conpty_run_pending chunks conpty_pump_init (Nat.zero_le _)
    rw [show conpty_pump_init.pending = [] from rfl, List.nil_append] at h
    exact h

/-- C2 witness: three nonempty single-byte reads alternate 0,1,0 and are
delivered in full by both pumps. -/
theorem output_pump_alternation_witness :
    ((iocp_run iocp_init [[1], [2], [3]]).forwarded.map Prod.snd = [[1], [2], [3]]) ∧
    (∀ i, i < (iocp_run iocp_init [[1], [2], [3]]).forwarded.length →
      ((iocp_run iocp_init [[1], [2], [3]]).forwarded.getD i (0, [])).1 = i % 2) ∧
    (∀ i, i < (conpty_run conpty_pump_init [[1], [2], [3]]).forwardedIdx.length →
      (conpty_run conpty_pump_init [[1], [2], [3]]).forwardedIdx.getD i 0 = i % 2) ∧
    (conpty_run conpty_pump_init [[1], [2], [3]]).pending
      = [[1], [2], [3]].flatten.take PENDING_CAP :=
  output_pump_alternation [[1], [2], [3]] (by decide)

/-!  Control channel (on_ctrl_accept, src/conpty-proxy/conpty_proxy.c
lines 339-363) and the in-process resize entry point
(Fvterm_conpty_resize, src/conpty.c lines 530-572). -/

/-- The (width, height) stored by the proxy for the pseudo-console. -/
structure CtrlState where
  width : Int
  height : Int

/-- Outcome of one control-channel accept cycle: the stored size
afterwards, the argument of the g_resize_pseudo_console call when one was
issued, and whether the channel was re-armed for the next connection
(iocp_entry calls async_ctrl_accept unconditionally after on_ctrl_accept,
lines 395-398). -/
structure CtrlOutcome where
  st : CtrlState
  resizeCall : Option (Int × Int)
  rearmed : Bool

/-- on_ctrl_accept.  `readed` is the byte count ReadFile returned on the
control pipe (a DWORD, so `readed <= 0` means 0); `(width, height)` are
the ints left by `sscanf_s(buf, "%d %d", ...)`, both still 0 when the text
parses to nothing. -/
def on_ctrl_accept (st : CtrlState) (readed : Nat) (width height : Int) :
    CtrlOutcome :=
  if readed = 0 then ⟨st, none, true⟩
  else if width ≤ 0 ∨ height ≤ 0 then ⟨st, none, true⟩
  else if st.width = width ∧ st.height = height then ⟨st, none, true⟩
  else ⟨⟨width, height⟩, some (width, height), true⟩

/-- Fvterm_conpty_resize (src/conpty.c): the validity of term,
term->conpty and term->conpty->hpc gate the call; any positive size is
passed straight to g_ResizePseudoConsole - there is no comparison with a
current size.  The result is the argument of the issued OS resize call. -/
def Fvterm_conpty_resize (hasTerm hasConpty hasHpc : Bool)
    (width height : Int) : Option (Int × Int) :=
  if ¬ hasTerm then none
  else if ¬ hasConpty then none
  else if ¬ hasHpc then none
  else if width ≤ 0 ∨ height ≤ 0 then none
  else some (width, height)

/-- C4 counterexample: with current size (80, 24), the message "80 25"
parses to two positive integers of which only the height differs; the
claim says a resize happens only if both differ, but on_ctrl_accept
issues the resize call. -/
theorem resize_both_differ_counterexample :
    ¬ (∀ (st : CtrlState) (readed : Nat) (w h : Int),
        (on_ctrl_accept st readed w h).resizeCall ≠ none →
        w ≠ st.width ∧ h ≠ st.height) := by
  intro hclaim
  have h := hclaim ⟨80, 24⟩ 5 80 25 (by decide)
  exact h.1 rfl

/-- C4 (amended): on_ctrl_accept issues the OS resize call iff the
message was nonempty, parsed to two positive integers, and at least one
dimension differs from the stored size (not necessarily both); requesting
exactly the current size stores nothing and issues no call; a malformed
message (zero read, non-positive or unparsed values) leaves the stored
size unchanged and issues no call; the channel is re-armed in every case.
The in-process Fvterm_conpty_resize issues the OS call for every positive
size with no current-size comparison. -/
theorem on_ctrl_accept_spec (st : CtrlState) (readed : Nat) (w h : Int) :
    ((on_ctrl_accept st readed w h).resizeCall ≠ none ↔
      (readed ≠ 0 ∧ 0 < w ∧ 0 < h ∧ (w ≠ st.width ∨ h ≠ st.height))) ∧
    ((on_ctrl_accept st readed w h).resizeCall = none →
      (on_ctrl_accept st readed w h).st = st) ∧
    ((on_ctrl_accept st readed w h).resizeCall ≠ none →
      (on_ctrl_accept st readed w h).st = ⟨w, h⟩ ∧
      (on_ctrl_accept st readed w h).resizeCall = some (w, h)) ∧
    (on_ctrl_accept st readed w h).rearmed = true ∧
    (0 < w → 0 < h → Fvterm_conpty_resize true true true w h = some (w, h)) := by
  have hres : ∀ hw2 : 0 < w, ∀ hh2 : 0 < h,
      Fvterm_conpty_resize true true true w h = some (w, h) := by
    intro hw2 hh2
    unfold Fvterm_conpty_resize
    rw [if_neg (by simp), if_neg (by simp), if_neg (by simp),
      if_neg (by omega)]
  unfold on_ctrl_accept
  split_ifs with h1 h2 h3
  · exact ⟨by simp [h1], fun _ => rfl, fun hc => absurd rfl hc, rfl, hres⟩
  · refine ⟨?_, fun _ => rfl, fun hc => absurd rfl hc, rfl, hres⟩
    simp only [ne_eq, not_true_eq_false, false_iff]
    rintro ⟨_, hw, hh, _⟩
    omega
  · refine ⟨?_, fun _ => rfl, fun hc => absurd rfl hc, rfl, hres⟩
    simp only [ne_eq, not_true_eq_false, false_iff]
    rintro ⟨_, _, _, hor⟩
    rcases hor with hx | hx
    · exact hx h3.1.symm
    · exact hx h3.2.symm
  · refine ⟨?_, ?_, fun _ => ⟨rfl, rfl⟩, rfl, hres⟩
    · simp only [ne_eq, reduceCtorEq, not_false_eq_true, true_iff]
      refine ⟨h1, by omega, by omega, ?_⟩
      by_contra hcon
      push_neg at hcon
      exact h3 ⟨hcon.1.symm, hcon.2.symm⟩
    · intro hc
      exact absurd hc (by simp)

/-- C4 witness: current size (80, 24), message "100 40": the resize call
is issued with (100, 40) and the new size is stored. -/
theorem on_ctrl_accept_spec_witness :
    (on_ctrl_accept ⟨80, 24⟩ 5 100 40).resizeCall ≠ none ∧
    (on_ctrl_accept ⟨80, 24⟩ 5 100 40).st = ⟨100, 40⟩ ∧
    (on_ctrl_accept ⟨80, 24⟩ 5 100 40).resizeCall = some (100, 40) ∧
    Fvterm_conpty_resize true true true 100 40 = some (100, 40) := by
  have h := on_ctrl_accept_spec ⟨80, 24⟩ 5 100 40
  have hne : (on_ctrl_accept ⟨80, 24⟩ 5 100 40).resizeCall ≠ none :=
    h.1.mpr ⟨by decide, by decide, by decide, Or.inl (by decide)⟩
  exact ⟨hne, (h.2.2.1 hne).1, (h.2.2.1 hne).2,
    h.2.2.2.2 (by decide) (by decide)⟩

/-!  Teardown.  conpty_cleanup exists in both sources:
src/conpty-proxy/conpty_proxy.c lines 518-585 (the proxy) and
src/conpty.c lines 181-236 (the in-process session).  Handles are
modelled as Bool: true when the field holds a valid handle (neither NULL
nor INVALID_HANDLE_VALUE), false otherwise; every guarded release block
appends its release action and the cleanup ends with every field cleared.
Non-releasing calls (CancelWaitableTimer, PostQueuedCompletionStatus,
WaitForSingleObject, CancelIo, DisconnectNamedPipe) are not modelled. -/

/-- The resources the proxy's conpty_cleanup releases, in code order. -/
inductive ProxyRes where
  | flushTimer | iocpThread | iocp | process | ioRead | ioWrite
  | ctrlPipe | hpc | attrList | flushEvent | arena
deriving DecidableEq

/-- A release-path action of the proxy cleanup.  `terminate` is
TerminateProcess; the proxy cleanup never emits it (the source comment at
the process block reads: Don't force terminate - let process exit
naturally). -/
inductive ProxyAct where
  | close (r : ProxyRes)
  | terminate
deriving DecidableEq

/-- The handle fields of the proxy's conpty_t that conpty_cleanup
releases. -/
structure ProxyPty where
  flush_timer : Bool
  iocp_thread : Bool
  iocp : Bool
  process : Bool
  io_read : Bool
  io_write : Bool
  ctrl_pipe : Bool
  hpc : Bool
  lpAttributeList : Bool
  flush_event : Bool
  arena : Bool

/-- conpty_cleanup of the proxy: each valid handle is released once and
its field cleared; invalid fields are skipped. -/
def conpty_cleanup_proxy (p : ProxyPty) : ProxyPty × List ProxyAct :=
  (⟨false, false, false, false, false, false, false, false, false, false, false⟩,
    (if p.flush_timer then [ProxyAct.close ProxyRes.flushTimer] else [])
    ++ (if p.iocp_thread then [ProxyAct.close ProxyRes.iocpThread] else [])
    ++ (if p.iocp then [ProxyAct.close ProxyRes.iocp] else [])
    ++ (if p.process then [ProxyAct.close ProxyRes.process] else [])
    ++ (if p.io_read then [ProxyAct.close ProxyRes.ioRead] else [])
    ++ (if p.io_write then [ProxyAct.close ProxyRes.ioWrite] else [])
    ++ (if p.ctrl_pipe then [ProxyAct.close ProxyRes.ctrlPipe] else [])
    ++ (if p.hpc then [ProxyAct.close ProxyRes.hpc] else [])
    ++ (if p.lpAttributeList then [ProxyAct.close ProxyRes.attrList] else [])
    ++ (if p.flush_event then [ProxyAct.close ProxyRes.flushEvent] else [])
    ++ (if p.arena then [ProxyAct.close ProxyRes.arena] else []))

/-- Which proxy resource fields hold a valid handle. -/
def proxyValid (p : ProxyPty) : ProxyRes → Bool
  | ProxyRes.flushTimer => p.flush_timer
  | ProxyRes.iocpThread => p.iocp_thread
  | ProxyRes.iocp => p.iocp
  | ProxyRes.process => p.process
  | ProxyRes.ioRead => p.io_read
  | ProxyRes.ioWrite => p.io_write
  | ProxyRes.ctrlPipe => p.ctrl_pipe
  | ProxyRes.hpc => p.hpc
  | ProxyRes.attrList => p.lpAttributeList
  | ProxyRes.flushEvent => p.flush_event
  | ProxyRes.arena => p.arena

/-- The resources the in-process conpty_cleanup releases. -/
inductive InRes where
  | iocpThread | iocp | shellProcess | ptyInput | ptyOutput | hpc
deriving DecidableEq

/-- A release-path action of the in-process cleanup.  TerminateProcess is
called inside the shell_process block before CloseHandle (conpty.c lines
209-213); DeleteCriticalSection runs unconditionally once the state
exists. -/
inductive InprocAct where
  | close (r : InRes)
  | terminate
  | deleteCriticalSection
deriving DecidableEq

/-- The handle fields of ConPTYState involved in teardown. -/
structure ConPTYState where
  pty_input : Bool
  pty_output : Bool
  shell_process : Bool
  hpc : Bool
  iocp : Bool
  iocp_thread : Bool

/-- Term as far as teardown is concerned: the nullable conpty pointer. -/
structure Term where
  conpty : Option ConPTYState

/-- conpty_cleanup of src/conpty.c: returns immediately when term->conpty
is NULL; otherwise releases each valid handle in code order -
TerminateProcess always precedes closing a valid shell_process handle -
and finally clears term->conpty, making a second call a no-op. -/
def conpty_cleanup_inproc (t : Term) : Term × List InprocAct :=
  match t.conpty with
  | none => (t, [])
  | some st =>
      (⟨none⟩,
        (if st.iocp_thread then [InprocAct.close InRes.iocpThread] else [])
        ++ (if st.iocp then [InprocAct.close InRes.iocp] else [])
        ++ (if st.shell_process
            then [InprocAct.terminate, InprocAct.close InRes.shellProcess] else [])
        ++ (if st.pty_input then [InprocAct.close InRes.ptyInput] else [])
        ++ (if st.pty_output then [InprocAct.close InRes.ptyOutput] else [])
        ++ (if st.hpc then [InprocAct.close InRes.hpc] else [])
        ++ [InprocAct.deleteCriticalSection])

/-- Which in-process resource fields hold a valid handle. -/
def inValid (st : ConPTYState) : InRes → Bool
  | InRes.iocpThread => st.iocp_thread
  | InRes.iocp => st.iocp
  | InRes.shellProcess => st.shell_process
  | InRes.ptyInput => st.pty_input
  | InRes.ptyOutput => st.pty_output
  | InRes.hpc => st.hpc

/-- The conpty_init error path reached when opening the io_write endpoint
fails after io_read was opened (conpty_proxy.c lines 251-277): the err
block closes pty->io_read (its guard is only != INVALID_HANDLE_VALUE) but
does NOT clear the field, so the state it returns still marks io_read as
set; conpty_new (line 668) then calls conpty_cleanup on that state.  The
temporaries in_read/out_write are closed inside conpty_init and are not
tracked here. -/
def conpty_init_err_io_write (p : ProxyPty) : ProxyPty × List ProxyAct :=
  (p, if p.io_read then [ProxyAct.close ProxyRes.ioRead] else [])

/-- C5: the io_write-open failure during construction closes the io_read
handle twice: once in conpty_init's error block (which leaves the field
set) and once more in the conpty_cleanup call that follows in conpty_new,
contradicting release-exactly-once.  The state is the one conpty_new has
built at that point: arena, ctrl_pipe, iocp and io_read acquired. -/
theorem conpty_init_double_close :
    ((conpty_init_err_io_write
        ⟨false, false, true, false, true, false, true, false, false, false, true⟩).2
      ++ (conpty_cleanup_proxy (conpty_init_err_io_write
        ⟨false, false, true, false, true, false, true, false, false, false, true⟩).1).2).count
      (ProxyAct.close ProxyRes.ioRead) = 2 := by decide

theorem mem_terminate_close_seg (b : Bool) (r : ProxyRes) :
    (ProxyAct.terminate ∈ (if b = true then [ProxyAct.close r] else [])) ↔ False := by
  split <;> simp

theorem mem_terminate_inclose_seg (b : Bool) (r : InRes) :
    (InprocAct.terminate ∈ (if b = true then [InprocAct.close r] else [])) ↔ False := by
  split <;> simp

theorem mem_terminate_shell_seg (b : Bool) :
    (InprocAct.terminate ∈ (if b = true
      then [InprocAct.terminate, InprocAct.close InRes.shellProcess] else []))
    ↔ b = true := by
  cases b <;> simp

/-- C9 counterexample: the in-process session state after the output pump
observed end-of-stream (the child exited on its own: the thread broke out
of its loop, leaving every handle - including the now-dead child's
process handle - valid, and iocp NULL as Fvterm_conpty_init left it).
Teardown of that state invokes TerminateProcess, although the claim says
graceful-shutdown teardown only closes the process handle. -/
theorem inproc_graceful_terminate_counterexample :
    InprocAct.terminate ∈ (conpty_cleanup_inproc
      ⟨some ⟨true, true, true, true, false, true⟩⟩).2 := by decide

/-- C9 (amended): the proxy teardown never invokes TerminateProcess on
any path (even explicit kill closes the process handle and lets the child
exit naturally), while the in-process teardown invokes TerminateProcess
exactly when the shell-process handle is still valid - regardless of
whether the child already exited on its own. -/
theorem terminate_policy (p : ProxyPty) (t : Term) :
    (ProxyAct.terminate ∉ (conpty_cleanup_proxy p).2) ∧
    (InprocAct.terminate ∈ (conpty_cleanup_inproc t).2 ↔
      ∃ st, t.conpty = some st ∧ st.shell_process = true) := by
  constructor
  · simp [conpty_cleanup_proxy, mem_terminate_close_seg]
  · rcases t with ⟨_ | st⟩
    · simp [conpty_cleanup_inproc]
    · show InprocAct.terminate ∈ (conpty_cleanup_inproc ⟨some st⟩).2 ↔ _
      unfold conpty_cleanup_inproc
      simp [mem_terminate_inclose_seg, mem_terminate_shell_seg]

theorem count_close_seg (b : Bool) (r t : ProxyRes) :
    (if b = true then [ProxyAct.close t] else []).count (ProxyAct.close r)
      = if b = true ∧ t = r then 1 else 0 := by
  cases b with
  | false => simp
  | true =>
    by_cases h : t = r
    · subst h
      simp
    · simp [List.count_cons, h]

/-- conpty_cleanup of the proxy releases each valid resource exactly
once, no invalid resource at all, and a second call releases nothing. -/
theorem conpty_cleanup_proxy_spec (p : ProxyPty) (r : ProxyRes) :
    ((conpty_cleanup_proxy p).2.count (ProxyAct.close r)
        = if proxyValid p r then 1 else 0) ∧
    (conpty_cleanup_proxy (conpty_cleanup_proxy p).1).2 = [] := by
  constructor
  · simp only [conpty_cleanup_proxy, List.count_append, count_close_seg]
    cases r <;> simp [proxyValid]
  · rfl

theorem count_inclose_seg (b : Bool) (r t : InRes) :
    (if b = true then [InprocAct.close t] else []).count (InprocAct.close r)
      = if b = true ∧ t = r then 1 else 0 := by
  cases b with
  | false => simp
  | true =>
    by_cases h : t = r
    · subst h
      simp
    · simp [List.count_cons, h]

theorem count_inshell_seg (b : Bool) (r : InRes) :
    (if b = true
      then [InprocAct.terminate, InprocAct.close InRes.shellProcess] else []).count
      (InprocAct.close r)
      = if b = true ∧ InRes.shellProcess = r then 1 else 0 := by
  cases b with
  | false => simp
  | true =>
    by_cases h : InRes.shellProcess = r
    · rw [← h]
      simp
    · simp [List.count_cons, h]

/-- conpty_cleanup of src/conpty.c releases each valid resource exactly
once and is a no-op when term->conpty is NULL; since it ends by clearing
term->conpty, a second call in a row releases nothing. -/
theorem conpty_cleanup_inproc_spec (t : Term) (r : InRes) :
    (∀ st, t.conpty = some st →
      (conpty_cleanup_inproc t).2.count (InprocAct.close r)
        = if inValid st r then 1 else 0) ∧
    (t.conpty = none → (conpty_cleanup_inproc t).2 = []) ∧
    (conpty_cleanup_inproc (conpty_cleanup_inproc t).1).2 = [] := by
  rcases t with ⟨_ | st⟩
  · exact ⟨fun st h => absurd h (by simp), fun _ => rfl, rfl⟩
  · refine ⟨?_, fun h => absurd h (by simp), rfl⟩
    intro st2 h2
    have hst : st2 = st := by
      have := h2
      simp at this
      exact this.symm
    subst hst
    show ((conpty_cleanup_inproc ⟨some st2⟩).2).count (InprocAct.close r) = _
    unfold conpty_cleanup_inproc
    simp only [List.count_append, count_inclose_seg, count_inshell_seg]
    cases r <;> simp [inValid, List.count_cons, List.count_nil]

/-!  Exit codes (src/conpty-proxy/conpty_proxy.c).  The error enum
(lines 34-54) and the decision structure of conpty_new (lines 607-710),
conpty_init (lines 205-278), conpty_spawn (lines 280-324) and stdio_run
(lines 428-515). -/

def ERROR_INVALID_ARGC : Int := 1
def ERROR_ID_DUP : Int := 2
def ERROR_CREATE_CTRL_PIPE_FAILED : Int := 3
def ERROR_CONPTY_API_INIT_FAILED : Int := 4
def ERROR_INVALID_SIZE : Int := 5
def ERROR_CREATE_IN_PIPE_FAILED : Int := 6
def ERROR_CREATE_OUT_PIPE_FAILED : Int := 7
def ERROR_CREATE_PSEUDO_CONSOLE_FAILED : Int := 8
def ERROR_OPEN_IN_PIPE_FAILED : Int := 9
def ERROR_OPEN_OUT_PIPE_FAILED : Int := 10
def ERROR_MALLOC_PROC_ATTR_FAILED : Int := 11
def ERROR_INIT_PROC_ATTR_FAILED : Int := 12
def ERROR_UPDATE_PROC_ATTR_FAILED : Int := 13
def ERROR_CREATE_PROC_FAILED : Int := 14
def ERROR_CREATE_MAIN_IOCP_FAILED : Int := 15
def ERROR_RESIZE_ID_INVALID : Int := 16
def ERROR_CREATE_IO_READ_IOCP_FAILED : Int := 17
def ERROR_CREATE_CTRL_READ_IOCP_FAILED : Int := 18

/-- The outcome of every fallible step conpty_new attempts, plus the
parsed size arguments. -/
structure SetupSteps where
  argc : Nat
  arenaOk : Bool
  idDup : Bool
  ctrlPipeOk : Bool
  apiOk : Bool
  mainIocpOk : Bool
  width : Int
  height : Int
  inPipeOk : Bool
  outPipeOk : Bool
  pseudoOk : Bool
  openIoReadOk : Bool
  openIoWriteOk : Bool
  attrAllocOk : Bool
  attrInitOk : Bool
  attrUpdateOk : Bool
  spawnOk : Bool
  ioReadIocpOk : Bool
  ctrlIocpOk : Bool
  threadOk : Bool

/-- The return value of conpty_init: 0 on success or the code of the
first failing step, in source order. -/
def conpty_init_ret (o : SetupSteps) : Int :=
  if ¬ o.inPipeOk then ERROR_CREATE_IN_PIPE_FAILED
  else if ¬ o.outPipeOk then ERROR_CREATE_OUT_PIPE_FAILED
  else if ¬ o.pseudoOk then ERROR_CREATE_PSEUDO_CONSOLE_FAILED
  else if ¬ o.openIoReadOk then ERROR_OPEN_IN_PIPE_FAILED
  else if ¬ o.openIoWriteOk then ERROR_OPEN_OUT_PIPE_FAILED
  else 0

/-- The return value of conpty_spawn. -/
def conpty_spawn_ret (o : SetupSteps) : Int :=
  if ¬ o.attrAllocOk then ERROR_MALLOC_PROC_ATTR_FAILED
  else if ¬ o.attrInitOk then ERROR_INIT_PROC_ATTR_FAILED
  else if ¬ o.attrUpdateOk then ERROR_UPDATE_PROC_ATTR_FAILED
  else if ¬ o.spawnOk then ERROR_CREATE_PROC_FAILED
  else 0

/-- One iteration's outcome in the stdio_run loop, or its pre-loop timer
creation. -/
inductive StdioEvent where
  | timerCreateFail
  | stdinReadHardFail
  | stdinReadNoData
  | stdinFullFlushFail
  | stdinThresholdFlushFail
  | stdinOk
  | timerFlushFail
  | timerOk
  | waitFail

/-- Every return statement in stdio_run returns -1; the other events let
the while(1) loop continue. -/
def stdio_run_step : StdioEvent → Option Int
  | StdioEvent.timerCreateFail => some (-1)
  | StdioEvent.stdinReadHardFail => some (-1)
  | StdioEvent.stdinReadNoData => none
  | StdioEvent.stdinFullFlushFail => some (-1)
  | StdioEvent.stdinThresholdFlushFail => some (-1)
  | StdioEvent.stdinOk => none
  | StdioEvent.timerFlushFail => some (-1)
  | StdioEvent.timerOk => none
  | StdioEvent.waitFail => some (-1)

/-- stdio_run over a sequence of loop events: the first returning event
ends the run (`none` = the loop is still running). -/
def stdio_run (events : List StdioEvent) : Option Int :=
  match events with
  | [] => none
  | e :: es =>
      match stdio_run_step e with
      | some r => some r
      | none => stdio_run es

/-- The process exit code of `conpty_proxy.exe new ...` (wmain returns
conpty_new's value): the first failing setup step's enum code, in source
order; when all setup succeeds, stdio_run's result.  The CreateThread
check compares against INVALID_HANDLE_VALUE (here -1) although a failed
CreateThread returns NULL (here 0), so that branch can never fire.
`none` means the process has not exited. -/
def conpty_new_exit (o : SetupSteps) (events : List StdioEvent) : Option Int :=
  if o.argc < 6 then some ERROR_INVALID_ARGC
  else if ¬ o.arenaOk then some ERROR_MALLOC_PROC_ATTR_FAILED
  else if o.idDup then some ERROR_ID_DUP
  else if ¬ o.ctrlPipeOk then some ERROR_CREATE_CTRL_PIPE_FAILED
  else if ¬ o.apiOk then some ERROR_CONPTY_API_INIT_FAILED
  else if ¬ o.mainIocpOk then some ERROR_CREATE_MAIN_IOCP_FAILED
  else if o.width ≤ 0 ∨ o.height ≤ 0 then some ERROR_INVALID_SIZE
  else if conpty_init_ret o ≠ 0 then some (conpty_init_ret o)
  else if conpty_spawn_ret o ≠ 0 then some (conpty_spawn_ret o)
  else if ¬ o.ioReadIocpOk then some ERROR_CREATE_IO_READ_IOCP_FAILED
  else if ¬ o.ctrlIocpOk then some ERROR_CREATE_CTRL_READ_IOCP_FAILED
  else if (if o.threadOk then (1 : Int) else 0) = -1 then some (-1)
  else stdio_run events

/-- A SetupSteps value with every step succeeding and a valid size. -/
def allStepsOk : SetupSteps :=
  ⟨6, true, false, true, true, true, 80, 24, true, true, true, true, true,
    true, true, true, true, true, true, true⟩

theorem stdio_run_only_minus_one (events : List StdioEvent) :
    ∀ r, stdio_run events = some r → r = -1 := by
  induction events with
  | nil => intro r h; exact absurd h (by simp [stdio_run])
  | cons e es ih =>
    intro r h
    unfold stdio_run at h
    cases e <;> simp [stdio_run_step] at h <;> try omega
    all_goals exact ih r h

/-- C6 counterexample: with every setup step succeeding, the proxy shuts
down (stdin reaches end-of-stream / fails hard after the child exited)
with exit code -1, not 0: stdio_run has no path returning 0, so graceful
shutdown never exits 0. -/
theorem conpty_new_exit_zero_counterexample :
    conpty_new_exit allStepsOk [StdioEvent.stdinReadHardFail] = some (-1) ∧
    ((-1 : Int) = 0 → False) := by
  decide

theorem conpty_new_exit_ne_zero (o : SetupSteps) (events : List StdioEvent) :
    ∀ r, conpty_new_exit o events = some r → r ≠ 0 := by
  intro r h
  unfold conpty_new_exit at h
  by_cases h1 : o.argc < 6
  · rw [if_pos h1, Option.some_inj] at h
    subst h; decide
  rw [if_neg h1] at h
  by_cases h2 : ¬ o.arenaOk
  · rw [if_pos h2, Option.some_inj] at h
    subst h; decide
  rw [if_neg h2] at h
  by_cases h3 : o.idDup
  · rw [if_pos h3, Option.some_inj] at h
    subst h; decide
  rw [if_neg h3] at h
  by_cases h4 : ¬ o.ctrlPipeOk
  · rw [if_pos h4, Option.some_inj] at h
    subst h; decide
  rw [if_neg h4] at h
  by_cases h5 : ¬ o.apiOk
  · rw [if_pos h5, Option.some_inj] at h
    subst h; decide
  rw [if_neg h5] at h
  by_cases h6 : ¬ o.mainIocpOk
  · rw [if_pos h6, Option.some_inj] at h
    subst h; decide
  rw [if_neg h6] at h
  by_cases h7 : o.width ≤ 0 ∨ o.height ≤ 0
  · rw [if_pos h7, Option.some_inj] at h
    subst h; decide
  rw [if_neg h7] at h
  by_cases h8 : conpty_init_ret o ≠ 0
  · rw [if_pos h8, Option.some_inj] at h
    subst h; exact h8
  rw [if_neg h8] at h
  by_cases h9 : conpty_spawn_ret o ≠ 0
  · rw [if_pos h9, Option.some_inj] at h
    subst h; exact h9
  rw [if_neg h9] at h
  by_cases h10 : ¬ o.ioReadIocpOk
  · rw [if_pos h10, Option.some_inj] at h
    subst h; decide
  rw [if_neg h10] at h
  by_cases h11 : ¬ o.ctrlIocpOk
  · rw [if_pos h11, Option.some_inj] at h
    subst h; decide
  rw [if_neg h11] at h
  by_cases h12 : (if o.threadOk then (1 : Int) else 0) = -1
  · rw [if_pos h12, Option.some_inj] at h
    subst h; decide
  rw [if_neg h12] at h
  have h13 := stdio_run_only_minus_one events r h
  subst h13
  decide

/-- C6 (amended): each enumerated setup-failure step exits with its own
small positive code (1..18, pairwise distinct, in the fixed list below),
but the proxy process never exits 0 from the `new` action: every
stdio_run return path yields -1, so shutdown exits -1 (only the separate
`resize` client action returns 0 on success). -/
theorem conpty_exit_codes (o : SetupSteps) (events : List StdioEvent) :
    (∀ r, conpty_new_exit o events = some r → r ≠ 0) ∧
    [ERROR_INVALID_ARGC, ERROR_ID_DUP, ERROR_CREATE_CTRL_PIPE_FAILED,
      ERROR_CONPTY_API_INIT_FAILED, ERROR_INVALID_SIZE,
      ERROR_CREATE_IN_PIPE_FAILED, ERROR_CREATE_OUT_PIPE_FAILED,
      ERROR_CREATE_PSEUDO_CONSOLE_FAILED, ERROR_OPEN_IN_PIPE_FAILED,
      ERROR_OPEN_OUT_PIPE_FAILED, ERROR_MALLOC_PROC_ATTR_FAILED,
      ERROR_INIT_PROC_ATTR_FAILED, ERROR_UPDATE_PROC_ATTR_FAILED,
      ERROR_CREATE_PROC_FAILED, ERROR_CREATE_MAIN_IOCP_FAILED,
      ERROR_CREATE_IO_READ_IOCP_FAILED,
      ERROR_CREATE_CTRL_READ_IOCP_FAILED].Nodup ∧
    (∀ c ∈ [ERROR_INVALID_ARGC, ERROR_ID_DUP, ERROR_CREATE_CTRL_PIPE_FAILED,
      ERROR_CONPTY_API_INIT_FAILED, ERROR_INVALID_SIZE,
      ERROR_CREATE_IN_PIPE_FAILED, ERROR_CREATE_OUT_PIPE_FAILED,
      ERROR_CREATE_PSEUDO_CONSOLE_FAILED, ERROR_OPEN_IN_PIPE_FAILED,
      ERROR_OPEN_OUT_PIPE_FAILED, ERROR_MALLOC_PROC_ATTR_FAILED,
      ERROR_INIT_PROC_ATTR_FAILED, ERROR_UPDATE_PROC_ATTR_FAILED,
      ERROR_CREATE_PROC_FAILED, ERROR_CREATE_MAIN_IOCP_FAILED,
      ERROR_CREATE_IO_READ_IOCP_FAILED,
      ERROR_CREATE_CTRL_READ_IOCP_FAILED], 1 ≤ c ∧ c ≤ 18) ∧
    conpty_new_exit { allStepsOk with argc := 3 } [] = some ERROR_INVALID_ARGC ∧
    conpty_new_exit { allStepsOk with idDup := true } [] = some ERROR_ID_DUP ∧
    conpty_new_exit { allStepsOk with ctrlPipeOk := false } []
      = some ERROR_CREATE_CTRL_PIPE_FAILED ∧
    conpty_new_exit { allStepsOk with apiOk := false } []
      = some ERROR_CONPTY_API_INIT_FAILED ∧
    conpty_new_exit { allStepsOk with width := 0 } [] = some ERROR_INVALID_SIZE ∧
    conpty_new_exit { allStepsOk with inPipeOk := false } []
      = some ERROR_CREATE_IN_PIPE_FAILED ∧
    conpty_new_exit { allStepsOk with outPipeOk := false } []
      = some ERROR_CREATE_OUT_PIPE_FAILED ∧
    conpty_new_exit { allStepsOk with pseudoOk := false } []
      = some ERROR_CREATE_PSEUDO_CONSOLE_FAILED ∧
    conpty_new_exit { allStepsOk with openIoReadOk := false } []
      = some ERROR_OPEN_IN_PIPE_FAILED ∧
    conpty_new_exit { allStepsOk with openIoWriteOk := false } []
      = some ERROR_OPEN_OUT_PIPE_FAILED ∧
    conpty_new_exit { allStepsOk with attrAllocOk := false } []
      = some ERROR_MALLOC_PROC_ATTR_FAILED ∧
    conpty_new_exit { allStepsOk with attrInitOk := false } []
      = some ERROR_INIT_PROC_ATTR_FAILED ∧
    conpty_new_exit { allStepsOk with attrUpdateOk := false } []
      = some ERROR_UPDATE_PROC_ATTR_FAILED ∧
    conpty_new_exit { allStepsOk with spawnOk := false } []
      = some ERROR_CREATE_PROC_FAILED ∧
    conpty_new_exit { allStepsOk with mainIocpOk := false } []
      = some ERROR_CREATE_MAIN_IOCP_FAILED ∧
    conpty_new_exit { allStepsOk with ioReadIocpOk := false } []
      = some ERROR_CREATE_IO_READ_IOCP_FAILED ∧
    conpty_new_exit { allStepsOk with ctrlIocpOk := false } []
      = some ERROR_CREATE_CTRL_READ_IOCP_FAILED := by
  refine ⟨conpty_new_exit_ne_zero o events, ?_⟩
  decide

/-- C6 witness: the first conjunct instantiated at the all-success
outcome with a hard stdin failure: the exit code is -1, which is not 0. -/
theorem conpty_exit_codes_witness :
    conpty_new_exit allStepsOk [StdioEvent.stdinReadHardFail] = some (-1) →
    (-1 : Int) ≠ 0 := by
  intro h
  exact (conpty_exit_codes allStepsOk [StdioEvent.stdinReadHardFail]).1 (-1) h

end ConptyProxy
